import Mathlib

/-!
Verification of the provider-resolution and backend-adapter layer of the
`acommit` commit-message generator (src/main.rs), shallowly embedded in Lean.

Strings are modelled as `List Char`.  Rust's `char::is_whitespace` is modelled
by `isWS`, covering the ASCII whitespace characters that occur in the program's
inputs; `str.split_whitespace`, `str::trim`, and `str::lines().next()` are
embedded as `words`, `trim`, and `linesFirst` below.  Transport (reqwest) and
serde decoding are out of scope: the adapter embeddings take the already
decoded response structures, exactly mirroring the field structure the source
declares with `#[derive(Deserialize)]`.
-/

namespace Acommit

/-- Rust `String` / `&str`, modelled as a list of characters. -/
abbrev Str := List Char

/-- Build a `Str` from a Lean string literal. -/
def str (s : String) : Str := s.toList

/-- Rust `char::is_whitespace`, restricted to the ASCII whitespace range
(space, tab, line feed, vertical tab, form feed, carriage return). -/
def isWS (c : Char) : Bool :=
  c = ' ' || c = '\t' || c = '\n' || c = '\x0b' || c = '\x0c' || c = '\r'

/-- One step of the right fold that implements `str::split_whitespace`.
The state is the word currently being accumulated (if the text continues
to the left with non-whitespace) together with the completed words. -/
def wordsStep (c : Char) (st : Option Str × List Str) : Option Str × List Str :=
  match st with
  | (cur, ws) =>
    if isWS c then
      match cur with
      | none => (none, ws)
      | some w => (none, w :: ws)
    else
      (some (c :: cur.getD []), ws)

/-- Close the fold state of `wordsStep` into the final word list. -/
def wordsFinish (st : Option Str × List Str) : List Str :=
  match st with
  | (none, ws) => ws
  | (some w, ws) => w :: ws

/-- Rust `str::split_whitespace` collected into a list: the maximal runs of
non-whitespace characters, in order, with empty runs discarded. -/
def words (s : Str) : List Str :=
  wordsFinish (s.foldr wordsStep (none, []))

/-- `Vec::join(" ")`: interpose a single space between the entries. -/
def joinSpace : List Str → Str
  | [] => []
  | [w] => w
  | w :: x :: t => w ++ ' ' :: joinSpace (x :: t)

/-- The whitespace collapsing every adapter applies last:
`split_whitespace().collect::<Vec<_>>().join(" ")`. -/
def collapse (s : Str) : Str := joinSpace (words s)

/-- Drop trailing whitespace (the right half of Rust `str::trim`). -/
def rdropWS (s : Str) : Str := (s.reverse.dropWhile isWS).reverse

/-- Rust `str::trim`: drop leading and trailing whitespace. -/
def trim (s : Str) : Str := rdropWS (s.dropWhile isWS)

/-- Strip one trailing carriage return (used by `str::lines` on a segment
that was terminated by a line feed). -/
def stripCR (l : Str) : Str :=
  if l.getLast? = some '\r' then l.dropLast else l

/-- Rust `str::lines().next()`: `none` on the empty string; otherwise the
prefix up to the first line feed, with a carriage return stripped when that
line feed exists (Rust strips `\r` only out of a `\r\n` pair). -/
def linesFirst (s : Str) : Option Str :=
  match s with
  | [] => none
  | _ :: _ =>
    if '\n' ∈ s then some (stripCR (s.takeWhile (fun c => c ≠ '\n')))
    else some s

/-! ### Unfolding lemmas for `words` -/

theorem words_nil : words [] = [] := rfl

theorem words_cons_ws {c : Char} (h : isWS c = true) (s : Str) :
    words (c :: s) = words s := by
  unfold words
  rcases hf : s.foldr wordsStep (none, []) with ⟨cur, ws⟩
  cases cur <;> simp [List.foldr_cons, hf, wordsStep, h, wordsFinish]

/-- The fold underlying `words`: the first component is the leading maximal
non-whitespace run (when nonempty) and the second component is `words` of the
remainder. -/
theorem words_foldr_pair (s : Str) :
    s.foldr wordsStep (none, []) =
      (if s.takeWhile (fun c => !isWS c) = [] then none
        else some (s.takeWhile (fun c => !isWS c)),
       words (s.dropWhile (fun c => !isWS c))) := by
  induction s with
  | nil => rfl
  | cons c s ih =>
    have hwords : words s = wordsFinish (s.foldr wordsStep (none, [])) := rfl
    by_cases h : isWS c = true
    · have htw : (c :: s).takeWhile (fun c => !isWS c) = [] := by
        simp [List.takeWhile_cons, h]
      have hdw : (c :: s).dropWhile (fun c => !isWS c) = c :: s := by
        simp [List.dropWhile_cons, h]
      rw [List.foldr_cons, ih, htw, hdw, if_pos rfl, words_cons_ws h]
      rcases htws : s.takeWhile (fun c => !isWS c) with _ | ⟨w0, wt⟩
      · have : words s = words (s.dropWhile (fun c => !isWS c)) := by
          rw [hwords, ih, htws]; rfl
        rw [this]
        simp [wordsStep, h]
      · have : words s = (w0 :: wt) :: words (s.dropWhile (fun c => !isWS c)) := by
          rw [hwords, ih, htws]
          simp [wordsFinish]
        rw [this]
        simp [wordsStep, h]
    · have h' : isWS c = false := by
        cases hh : isWS c
        · rfl
        · exact absurd hh h
      have htw : (c :: s).takeWhile (fun c => !isWS c)
          = c :: s.takeWhile (fun c => !isWS c) := by
        simp [List.takeWhile_cons, h']
      have hdw : (c :: s).dropWhile (fun c => !isWS c)
          = s.dropWhile (fun c => !isWS c) := by
        simp [List.dropWhile_cons, h']
      rw [List.foldr_cons, ih, htw, hdw]
      rcases htws : s.takeWhile (fun c => !isWS c) with _ | ⟨w0, wt⟩
      · rw [if_pos rfl, if_neg (by simp)]
        simp [wordsStep, h']
      · rw [if_neg (by simp), if_neg (by simp)]
        simp [wordsStep, h']

theorem words_cons_nonws {c : Char} (h : isWS c = false) (s : Str) :
    words (c :: s) =
      ((c :: s).takeWhile (fun c => !isWS c)) ::
        words ((c :: s).dropWhile (fun c => !isWS c)) := by
  have htw : (c :: s).takeWhile (fun c => !isWS c)
      = c :: s.takeWhile (fun c => !isWS c) := by
    simp [List.takeWhile_cons, h]
  have hdw : (c :: s).dropWhile (fun c => !isWS c)
      = s.dropWhile (fun c => !isWS c) := by
    simp [List.dropWhile_cons, h]
  have : words (c :: s) = wordsFinish ((c :: s).foldr wordsStep (none, [])) := rfl
  rw [this, List.foldr_cons, words_foldr_pair s, htw, hdw]
  rcases htws : s.takeWhile (fun c => !isWS c) with _ | ⟨w0, wt⟩
  · simp [wordsStep, h, wordsFinish, htws]
  · simp [wordsStep, h, wordsFinish, htws]

/-! ### Small `takeWhile` / `dropWhile` helpers -/

theorem takeWhile_all {p : Char → Bool} :
    ∀ {l : Str}, (∀ x ∈ l, p x = true) → l.takeWhile p = l := by
  intro l
  induction l with
  | nil => intro _; rfl
  | cons a l ih =>
    intro h
    rw [List.takeWhile_cons, if_pos (h a (List.mem_cons_self a l)),
      ih fun x hx => h x (List.mem_cons_of_mem a hx)]

theorem dropWhile_all {p : Char → Bool} :
    ∀ {l : Str}, (∀ x ∈ l, p x = true) → l.dropWhile p = [] := by
  intro l
  induction l with
  | nil => intro _; rfl
  | cons a l ih =>
    intro h
    rw [List.dropWhile_cons, if_pos (h a (List.mem_cons_self a l))]
    exact ih fun x hx => h x (List.mem_cons_of_mem a hx)

theorem length_dropWhile_le (p : Char → Bool) :
    ∀ l : Str, (l.dropWhile p).length ≤ l.length := by
  intro l
  induction l with
  | nil => exact Nat.le_refl 0
  | cons a l ih =>
    rw [List.dropWhile_cons]
    by_cases h : p a = true
    · rw [if_pos h]
      exact Nat.le_trans ih (Nat.le_succ _)
    · rw [if_neg h]

theorem dropWhile_head_false {p : Char → Bool} :
    ∀ (l : Str) {c r}, l.dropWhile p = c :: r → p c = false := by
  intro l
  induction l with
  | nil => intro c r h; cases h
  | cons a l ih =>
    intro c r h
    rw [List.dropWhile_cons] at h
    by_cases ha : p a = true
    · rw [if_pos ha] at h
      exact ih h
    · rw [if_neg ha] at h
      cases h
      simp at ha
      exact ha

theorem takeWhile_all_append {p : Char → Bool} {l1 : Str} (l2 : Str)
    (h : ∀ x ∈ l1, p x = true) : (l1 ++ l2).takeWhile p = l1 ++ l2.takeWhile p := by
  induction l1 with
  | nil => rfl
  | cons a l1 ih =>
    rw [List.cons_append, List.takeWhile_cons, if_pos (h a (List.mem_cons_self a l1)),
      ih fun x hx => h x (List.mem_cons_of_mem a hx), List.cons_append]

theorem dropWhile_all_append {p : Char → Bool} {l1 : Str} (l2 : Str)
    (h : ∀ x ∈ l1, p x = true) : (l1 ++ l2).dropWhile p = l2.dropWhile p := by
  induction l1 with
  | nil => rfl
  | cons a l1 ih =>
    rw [List.cons_append, List.dropWhile_cons, if_pos (h a (List.mem_cons_self a l1))]
    exact ih fun x hx => h x (List.mem_cons_of_mem a hx)

/-! ### Splitting `words` at whitespace -/

theorem wordsFinish_append (st : Option Str × List Str) (X : List Str) :
    wordsFinish (st.1, st.2 ++ X) = wordsFinish st ++ X := by
  rcases st with ⟨cur, ws⟩
  cases cur <;> rfl

theorem wordsStep_ws {c : Char} (h : isWS c = true) (st : Option Str × List Str) :
    wordsStep c st = (none, wordsFinish st) := by
  rcases st with ⟨cur, ws⟩
  cases cur <;> simp [wordsStep, h, wordsFinish]

/-- Appending more completed words to the start state of the fold just carries
them along unchanged at the end. -/
theorem words_foldr_ride (a : Str) (X : List Str) :
    a.foldr wordsStep (none, X) =
      ((a.foldr wordsStep (none, [])).1, (a.foldr wordsStep (none, [])).2 ++ X) := by
  induction a with
  | nil => rfl
  | cons c a ih =>
    rw [List.foldr_cons, ih, List.foldr_cons]
    rcases hp : a.foldr wordsStep (none, []) with ⟨cur, ws⟩
    by_cases h : isWS c = true
    · rw [wordsStep_ws h, wordsStep_ws h]
      exact congrArg _ (wordsFinish_append (cur, ws) X)
    · have h' : isWS c = false := by
        cases hh : isWS c
        · rfl
        · exact absurd hh h
      simp [wordsStep, h']

/-- `split_whitespace` splits cleanly at any whitespace character. -/
theorem words_append_ws {c : Char} (h : isWS c = true) (a b : Str) :
    words (a ++ c :: b) = words a ++ words b := by
  show wordsFinish ((a ++ c :: b).foldr wordsStep (none, [])) = _
  rw [List.foldr_append, List.foldr_cons, wordsStep_ws h,
    show wordsFinish (b.foldr wordsStep (none, [])) = words b from rfl,
    words_foldr_ride a (words b)]
  rw [wordsFinish_append]
  rfl

theorem words_all_ws : ∀ {t : Str}, (∀ c ∈ t, isWS c = true) → words t = [] := by
  intro t
  induction t with
  | nil => intro _; rfl
  | cons c t ih =>
    intro h
    rw [words_cons_ws (h c (List.mem_cons_self c t))]
    exact ih fun x hx => h x (List.mem_cons_of_mem c hx)

theorem words_append_all_ws {t : Str} (a : Str) (h : ∀ c ∈ t, isWS c = true) :
    words (a ++ t) = words a := by
  cases t with
  | nil => rw [List.append_nil]
  | cons c t =>
    rw [words_append_ws (h c (List.mem_cons_self c t)),
      words_all_ws fun x hx => h x (List.mem_cons_of_mem c hx), List.append_nil]

/-- A nonempty run of non-whitespace characters is a single word. -/
theorem words_word {a : Str} (h1 : a ≠ []) (h2 : ∀ c ∈ a, isWS c = false) :
    words a = [a] := by
  cases a with
  | nil => exact absurd rfl h1
  | cons c a' =>
    have hc : isWS c = false := h2 c (List.mem_cons_self c a')
    rw [words_cons_nonws hc,
      takeWhile_all (l := c :: a') (fun x hx => by simp [h2 x hx]),
      dropWhile_all (l := c :: a') (fun x hx => by simp [h2 x hx])]
    rfl

/-- Every word produced by `split_whitespace` is nonempty and free of
whitespace. -/
theorem mem_words : ∀ {s w : Str}, w ∈ words s →
    w ≠ [] ∧ ∀ c ∈ w, isWS c = false := by
  have main : ∀ n (s : Str), s.length ≤ n → ∀ w ∈ words s,
      w ≠ [] ∧ ∀ c ∈ w, isWS c = false := by
    intro n
    induction n with
    | zero =>
      intro s hs w hw
      rw [List.eq_nil_of_length_eq_zero (Nat.le_zero.mp hs)] at hw
      cases hw
    | succ n ih =>
      intro s hs w hw
      cases s with
      | nil => cases hw
      | cons c s' =>
        by_cases h : isWS c = true
        · rw [words_cons_ws h] at hw
          exact ih s' (Nat.le_of_succ_le_succ hs) w hw
        · have h' : isWS c = false := by
            cases hh : isWS c
            · rfl
            · exact absurd hh h
          rw [words_cons_nonws h'] at hw
          rcases List.mem_cons.mp hw with hw | hw
          · subst hw
            refine ⟨by simp [List.takeWhile_cons, h'], ?_⟩
            intro x hx
            have := List.mem_takeWhile_imp hx
            simpa using this
          · refine ih ((c :: s').dropWhile (fun c => !isWS c)) ?_ w hw
            rw [List.dropWhile_cons, if_pos (by simp [h'])]
            exact Nat.le_trans (length_dropWhile_le _ s') (Nat.le_of_succ_le_succ hs)
  intro s w hw
  exact main s.length s (Nat.le_refl _) w hw

/-! ### The collapsed single-line form -/

/-- The first character, if any, is not whitespace. -/
def headNotWS : Str → Bool
  | [] => true
  | c :: _ => !isWS c

/-- The last character, if any, is not whitespace. -/
def lastNotWS (s : Str) : Bool := headNotWS s.reverse

/-- Every whitespace character occurring in the string is a plain space. -/
def wsIsSpace (s : Str) : Bool := s.all (fun c => !isWS c || c = ' ')

/-- No two consecutive characters are both whitespace. -/
def noTwoAdjWS : Str → Bool
  | c :: d :: t => (!(isWS c && isWS d)) && noTwoAdjWS (d :: t)
  | _ => true

/-- A single line whose whitespace runs are collapsed to single spaces, with
no leading or trailing whitespace. -/
def isCollapsedLine (s : Str) : Bool :=
  wsIsSpace s && noTwoAdjWS s && headNotWS s && lastNotWS s

theorem joinSpace_cons (w : Str) (t : List Str) :
    joinSpace (w :: t) = w ++ (if t = [] then [] else ' ' :: joinSpace t) := by
  cases t with
  | nil => simp [joinSpace]
  | cons x t => simp [joinSpace]

theorem joinSpace_ne_nil {w : Str} (t : List Str) (h : w ≠ []) :
    joinSpace (w :: t) ≠ [] := by
  rw [joinSpace_cons]
  cases t with
  | nil => simpa using h
  | cons x t => simp

theorem headNotWS_append {w : Str} (x : Str) (h : w ≠ []) :
    headNotWS (w ++ x) = headNotWS w := by
  cases w with
  | nil => exact absurd rfl h
  | cons c w => rfl

theorem headNotWS_of_all_nonws {w : Str} (h1 : w ≠ []) (h2 : ∀ c ∈ w, isWS c = false) :
    headNotWS w = true := by
  cases w with
  | nil => exact absurd rfl h1
  | cons c w => simp [headNotWS, h2 c (List.mem_cons_self c w)]

theorem lastNotWS_of_all_nonws {w : Str} (h1 : w ≠ []) (h2 : ∀ c ∈ w, isWS c = false) :
    lastNotWS w = true := by
  unfold lastNotWS
  exact headNotWS_of_all_nonws (by simpa using h1)
    fun c hc => h2 c (List.mem_reverse.mp hc)

theorem noTwoAdjWS_of_all_nonws : ∀ {w : Str}, (∀ c ∈ w, isWS c = false) →
    noTwoAdjWS w = true := by
  intro w
  induction w with
  | nil => intro _; rfl
  | cons a w ih =>
    intro h
    cases w with
    | nil => rfl
    | cons b t =>
      have : noTwoAdjWS (a :: b :: t)
          = ((!(isWS a && isWS b)) && noTwoAdjWS (b :: t)) := rfl
      rw [this, ih fun x hx => h x (List.mem_cons_of_mem a hx),
        h a (List.mem_cons_self a _)]
      rfl

theorem noTwoAdjWS_space_cons {r : Str} (h1 : headNotWS r = true)
    (h2 : noTwoAdjWS r = true) : noTwoAdjWS (' ' :: r) = true := by
  cases r with
  | nil => rfl
  | cons c t =>
    have hc : isWS c = false := by simpa [headNotWS] using h1
    have : noTwoAdjWS (' ' :: c :: t)
        = ((!(isWS ' ' && isWS c)) && noTwoAdjWS (c :: t)) := rfl
    rw [this, h2, hc]
    rfl

theorem noTwoAdjWS_append_word : ∀ {w r : Str}, (∀ c ∈ w, isWS c = false) →
    noTwoAdjWS r = true → noTwoAdjWS (w ++ r) = true := by
  intro w
  induction w with
  | nil => intro r _ hr; simpa using hr
  | cons a w ih =>
    intro r h hr
    have ha : isWS a = false := h a (List.mem_cons_self a w)
    cases w with
    | nil =>
      cases r with
      | nil => rfl
      | cons c t =>
        have : noTwoAdjWS ([a] ++ c :: t)
            = ((!(isWS a && isWS c)) && noTwoAdjWS (c :: t)) := rfl
        rw [this, ha, hr]
        rfl
    | cons b w' =>
      have hb : isWS b = false := h b (List.mem_cons_of_mem a (List.mem_cons_self b w'))
      have : noTwoAdjWS ((a :: b :: w') ++ r)
          = ((!(isWS a && isWS b)) && noTwoAdjWS ((b :: w') ++ r)) := rfl
      rw [this, ha, ih (fun x hx => h x (List.mem_cons_of_mem a hx)) hr]
      rfl

/-- Interposing single spaces between nonempty whitespace-free words yields a
string in collapsed single-line form. -/
theorem isCollapsedLine_joinSpace : ∀ {ws : List Str},
    (∀ w ∈ ws, w ≠ [] ∧ ∀ c ∈ w, isWS c = false) →
    isCollapsedLine (joinSpace ws) = true := by
  intro ws
  induction ws with
  | nil => intro _; rfl
  | cons w t ih =>
    intro h
    obtain ⟨hw1, hw2⟩ := h w (List.mem_cons_self w t)
    cases t with
    | nil =>
      show isCollapsedLine w = true
      unfold isCollapsedLine wsIsSpace
      rw [List.all_eq_true.mpr (fun c hc => by simp [hw2 c hc]),
        noTwoAdjWS_of_all_nonws hw2, headNotWS_of_all_nonws hw1 hw2,
        lastNotWS_of_all_nonws hw1 hw2]
      rfl
    | cons x t' =>
      have hrest := ih fun v hv => h v (List.mem_cons_of_mem w hv)
      have hx := h x (List.mem_cons_of_mem w (List.mem_cons_self x t'))
      have hJne : joinSpace (x :: t') ≠ [] := joinSpace_ne_nil t' hx.1
      have hJ : isCollapsedLine (joinSpace (x :: t')) = true := hrest
      have hJws : wsIsSpace (joinSpace (x :: t')) = true := by
        unfold isCollapsedLine at hJ
        exact (Bool.and_eq_true _ _ |>.mp
          ((Bool.and_eq_true _ _ |>.mp
            ((Bool.and_eq_true _ _ |>.mp hJ).1)).1)).1
      have hJadj : noTwoAdjWS (joinSpace (x :: t')) = true := by
        unfold isCollapsedLine at hJ
        exact (Bool.and_eq_true _ _ |>.mp
          ((Bool.and_eq_true _ _ |>.mp
            ((Bool.and_eq_true _ _ |>.mp hJ).1)).1)).2
      have hJhead : headNotWS (joinSpace (x :: t')) = true := by
        unfold isCollapsedLine at hJ
        exact (Bool.and_eq_true _ _ |>.mp ((Bool.and_eq_true _ _ |>.mp hJ).1)).2
      have hJlast : lastNotWS (joinSpace (x :: t')) = true := by
        unfold isCollapsedLine at hJ
        exact (Bool.and_eq_true _ _ |>.mp hJ).2
      have hshape : joinSpace (w :: x :: t') = w ++ ' ' :: joinSpace (x :: t') := rfl
      unfold isCollapsedLine
      rw [hshape]
      have c1 : wsIsSpace (w ++ ' ' :: joinSpace (x :: t')) = true := by
        unfold wsIsSpace at hJws ⊢
        rw [List.all_append, List.all_cons]
        rw [List.all_eq_true.mpr (fun c hc => by simp [hw2 c hc]), hJws]
        rfl
      have c2 : noTwoAdjWS (w ++ ' ' :: joinSpace (x :: t')) = true :=
        noTwoAdjWS_append_word hw2 (noTwoAdjWS_space_cons hJhead hJadj)
      have c3 : headNotWS (w ++ ' ' :: joinSpace (x :: t')) = true := by
        rw [headNotWS_append _ hw1]
        exact headNotWS_of_all_nonws hw1 hw2
      have c4 : lastNotWS (w ++ ' ' :: joinSpace (x :: t')) = true := by
        unfold lastNotWS
        rw [List.reverse_append, List.reverse_cons]
        have hrevne : (joinSpace (x :: t')).reverse ≠ [] := by
          simpa using hJne
        rw [List.append_assoc, headNotWS_append _ hrevne]
        exact hJlast
      rw [c1, c2, c3, c4]
      rfl

/-- `split_whitespace` recovers the word list from its space-joined form. -/
theorem words_joinSpace : ∀ {ws : List Str},
    (∀ w ∈ ws, w ≠ [] ∧ ∀ c ∈ w, isWS c = false) →
    words (joinSpace ws) = ws := by
  intro ws
  induction ws with
  | nil => intro _; rfl
  | cons w t ih =>
    intro h
    obtain ⟨hw1, hw2⟩ := h w (List.mem_cons_self w t)
    cases t with
    | nil => exact words_word hw1 hw2
    | cons x t' =>
      have hshape : joinSpace (w :: x :: t') = w ++ ' ' :: joinSpace (x :: t') := rfl
      rw [hshape, words_append_ws (by rfl) w (joinSpace (x :: t')),
        words_word hw1 hw2, ih fun v hv => h v (List.mem_cons_of_mem w hv)]
      rfl

theorem noTwoAdjWS_tail {a : Char} {l : Str} (h : noTwoAdjWS (a :: l) = true) :
    noTwoAdjWS l = true := by
  cases l with
  | nil => rfl
  | cons b t =>
    have : noTwoAdjWS (a :: b :: t)
        = ((!(isWS a && isWS b)) && noTwoAdjWS (b :: t)) := rfl
    rw [this, Bool.and_eq_true] at h
    exact h.2

theorem noTwoAdjWS_append_right : ∀ {x y : Str},
    noTwoAdjWS (x ++ y) = true → noTwoAdjWS y = true := by
  intro x
  induction x with
  | nil => intro y h; simpa using h
  | cons a x ih =>
    intro y h
    exact ih (noTwoAdjWS_tail h)

theorem isCollapsedLine_parts {s : Str} (h : isCollapsedLine s = true) :
    wsIsSpace s = true ∧ noTwoAdjWS s = true ∧ headNotWS s = true
      ∧ lastNotWS s = true := by
  unfold isCollapsedLine at h
  rw [Bool.and_eq_true, Bool.and_eq_true, Bool.and_eq_true] at h
  exact ⟨h.1.1.1, h.1.1.2, h.1.2, h.2⟩

/-- A string already in collapsed single-line form is recovered unchanged by
splitting into words and re-joining with single spaces. -/
theorem joinSpace_words_of_collapsed {s : Str} (h : isCollapsedLine s = true) :
    joinSpace (words s) = s := by
  have main : ∀ n (s : Str), s.length ≤ n → isCollapsedLine s = true →
      joinSpace (words s) = s := by
    intro n
    induction n with
    | zero =>
      intro s hs _
      rw [List.eq_nil_of_length_eq_zero (Nat.le_zero.mp hs)]
      rfl
    | succ n ih =>
      intro s hs h
      cases s with
      | nil => rfl
      | cons c s' =>
        obtain ⟨hws, hadj, hhead, hlast⟩ := isCollapsedLine_parts h
        have hc : isWS c = false := by simpa [headNotWS] using hhead
        have hdecomp : (c :: s').takeWhile (fun x => !isWS x)
            ++ (c :: s').dropWhile (fun x => !isWS x) = c :: s' :=
          List.takeWhile_append_dropWhile (fun x => !isWS x) (c :: s')
        have hwunfold : words (c :: s') =
            ((c :: s').takeWhile (fun x => !isWS x)) ::
              words ((c :: s').dropWhile (fun x => !isWS x)) :=
          words_cons_nonws hc s'
        have hwne : (c :: s').takeWhile (fun x => !isWS x) ≠ [] := by
          simp [List.takeWhile_cons, hc]
        have hwnonws : ∀ x ∈ (c :: s').takeWhile (fun x => !isWS x),
            isWS x = false := by
          intro x hx
          have := List.mem_takeWhile_imp hx
          simpa using this
        rcases hr : (c :: s').dropWhile (fun x => !isWS x) with _ | ⟨d, r'⟩
        · rw [hwunfold, hr]
          show joinSpace [(c :: s').takeWhile (fun x => !isWS x)] = c :: s'
          rw [joinSpace_cons, if_pos rfl, List.append_nil]
          rw [hr, List.append_nil] at hdecomp
          exact hdecomp
        · have hdws : isWS d = true := by
            have := dropWhile_head_false (p := fun x => !isWS x) (c :: s') hr
            simpa using this
          rw [hr] at hdecomp
          have hdmem : d ∈ c :: s' := by
            rw [← hdecomp]
            exact List.mem_append_right _ (List.mem_cons_self d r')
          have hdsp : d = ' ' := by
            have := List.all_eq_true.mp hws d hdmem
            rcases Bool.or_eq_true _ _ |>.mp this with h1 | h1
            · rw [hdws] at h1; cases h1
            · exact of_decide_eq_true h1
          subst hdsp
          have hadjsuffix : noTwoAdjWS (' ' :: r') = true := by
            refine noTwoAdjWS_append_right (x := (c :: s').takeWhile fun x => !isWS x) ?_
            rw [hdecomp]
            exact hadj
          have hr'ne : r' ≠ [] := by
            intro hnil
            subst hnil
            rw [← hdecomp] at hlast
            unfold lastNotWS at hlast
            rw [List.reverse_append] at hlast
            simp [headNotWS, isWS] at hlast
          have hr'head : headNotWS r' = true := by
            cases r' with
            | nil => rfl
            | cons e r'' =>
              have : noTwoAdjWS (' ' :: e :: r'')
                  = ((!(isWS ' ' && isWS e)) && noTwoAdjWS (e :: r'')) := rfl
              rw [this, Bool.and_eq_true] at hadjsuffix
              have he : isWS e = false := by
                have := hadjsuffix.1
                simpa [isWS] using this
              simp [headNotWS, he]
          have hr'ws : wsIsSpace r' = true := by
            refine List.all_eq_true.mpr fun x hx => ?_
            refine List.all_eq_true.mp hws x ?_
            rw [← hdecomp]
            exact List.mem_append_right _ (List.mem_cons_of_mem _ hx)
          have hr'adj : noTwoAdjWS r' = true := noTwoAdjWS_tail hadjsuffix
          have hr'last : lastNotWS r' = true := by
            rw [← hdecomp] at hlast
            unfold lastNotWS at hlast ⊢
            rw [List.reverse_append, List.reverse_cons, List.append_assoc] at hlast
            rwa [headNotWS_append _ (by simpa using hr'ne)] at hlast
          have hr'len : r'.length ≤ n := by
            have hlen := congrArg List.length hdecomp
            rw [List.length_append, List.length_cons, List.length_cons] at hlen
            have hw1 : 1 ≤ ((c :: s').takeWhile fun x => !isWS x).length := by
              rcases hkw : (c :: s').takeWhile (fun x => !isWS x) with _ | ⟨y, ys⟩
              · exact absurd hkw hwne
              · simp
            have := hs
            rw [List.length_cons] at this
            omega
          have hIH : joinSpace (words r') = r' :=
            ih r' hr'len (by
              unfold isCollapsedLine
              rw [hr'ws, hr'adj, hr'head, hr'last]
              rfl)
          have hwordsr' : words r' ≠ [] := by
            cases r' with
            | nil => exact absurd rfl hr'ne
            | cons e r'' =>
              have he : isWS e = false := by simpa [headNotWS] using hr'head
              rw [words_cons_nonws he]
              simp
          rw [hwunfold, hr, words_cons_ws (by rfl : isWS ' ' = true)]
          rw [joinSpace_cons, if_neg hwordsr', hIH]
          exact hdecomp
  exact main s.length s (Nat.le_refl _) h

/-! ### `trim` and `collapse` facts -/

theorem words_dropWhileWS : ∀ s : Str, words (s.dropWhile isWS) = words s := by
  intro s
  induction s with
  | nil => rfl
  | cons c s ih =>
    by_cases h : isWS c = true
    · rw [List.dropWhile_cons, if_pos h, ih, words_cons_ws h]
    · rw [List.dropWhile_cons, if_neg h]

theorem rdropWS_decomp (s : Str) :
    s = rdropWS s ++ (s.reverse.takeWhile isWS).reverse
      ∧ ∀ c ∈ (s.reverse.takeWhile isWS).reverse, isWS c = true := by
  constructor
  · conv_lhs => rw [← List.reverse_reverse s,
      ← List.takeWhile_append_dropWhile (p := isWS) (l := s.reverse)]
    rw [List.reverse_append]
    rfl
  · intro c hc
    exact List.mem_takeWhile_imp (List.mem_reverse.mp hc)

theorem words_rdropWS (s : Str) : words (rdropWS s) = words s := by
  obtain ⟨hdec, hws⟩ := rdropWS_decomp s
  conv_rhs => rw [hdec]
  rw [words_append_all_ws _ hws]

theorem collapse_trim (s : Str) : collapse (trim s) = collapse s := by
  unfold collapse trim
  rw [words_rdropWS, words_dropWhileWS]

/-- The collapsing step always produces a collapsed single line. -/
theorem isCollapsedLine_collapse (s : Str) : isCollapsedLine (collapse s) = true :=
  isCollapsedLine_joinSpace fun _ hw => mem_words hw

theorem newline_not_mem_of_wsIsSpace {s : Str} (h : wsIsSpace s = true) :
    '\n' ∉ s := by
  intro hm
  have := List.all_eq_true.mp h '\n' hm
  simp [isWS] at this

/-! ### Response payloads (the `#[derive(Deserialize)]` structures) -/

/-- `GeminiResponsePart` (src/main.rs:65-68). -/
structure GeminiResponsePart where
  text : Option Str

/-- `GeminiResponseContent` (src/main.rs:60-63). -/
structure GeminiResponseContent where
  parts : Option (List GeminiResponsePart)

/-- `GeminiCandidate` (src/main.rs:55-58). -/
structure GeminiCandidate where
  content : Option GeminiResponseContent

/-- `GeminiResponse` (src/main.rs:50-53). -/
structure GeminiResponse where
  candidates : Option (List GeminiCandidate)

/-- `OllamaResponse` (src/main.rs:78-82). -/
structure OllamaResponse where
  response : Option Str

/-- `OpenAIResponseMessage` (src/main.rs:109-112). -/
structure OpenAIResponseMessage where
  content : Option Str

/-- `OpenAIChoice` (src/main.rs:104-107). -/
structure OpenAIChoice where
  message : Option OpenAIResponseMessage

/-- `OpenAIResponse` (src/main.rs:99-102). -/
structure OpenAIResponse where
  choices : Option (List OpenAIChoice)

/-- The shared fallback commit message every adapter substitutes for a
missing field. -/
def fallbackMessage : Str := str "chore: update files"

/-- The extraction and cleanup tail of `call_gemini_api`
(src/main.rs:450-469): first candidate, its content, its parts, the first
part, its text; fallback on any absence; then trim and collapse all
whitespace runs to single spaces.  Transport and JSON decoding are out of
scope: the embedding takes the decoded response. -/
def call_gemini_api (data : GeminiResponse) : Str :=
  let commit_message :=
    trim ((((((data.candidates.bind List.head?).bind
      GeminiCandidate.content).bind
      GeminiResponseContent.parts).bind
      List.head?).bind
      GeminiResponsePart.text).getD fallbackMessage)
  collapse commit_message

/-- The extraction and cleanup tail of `call_ollama_api`
(src/main.rs:494-511): the `response` field with fallback, trimmed; then
only the first line (fallback when there is none), with whitespace runs
collapsed. -/
def call_ollama_api (data : OllamaResponse) : Str :=
  let commit_message := trim (data.response.getD fallbackMessage)
  collapse ((linesFirst commit_message).getD fallbackMessage)

/-- The extraction and cleanup tail of `call_openai_api`
(src/main.rs:545-565): first choice, its message, its content, with
fallback; trimmed, first line only, whitespace collapsed. -/
def call_openai_api (data : OpenAIResponse) : Str :=
  let commit_message :=
    trim (((data.choices.bind List.head?).bind
      OpenAIChoice.message).bind
      OpenAIResponseMessage.content |>.getD fallbackMessage)
  collapse ((linesFirst commit_message).getD fallbackMessage)

/-! ### First-line extraction on a text with a known first line -/

theorem collapse_stripCR (a : Str) : collapse (stripCR a) = collapse a := by
  unfold stripCR
  by_cases h : a.getLast? = some '\r'
  · rw [if_pos h]
    have hne : a ≠ [] := by
      intro hnil
      rw [hnil] at h
      cases h
    have hdec : a.dropLast ++ [a.getLast hne] = a := List.dropLast_append_getLast hne
    have hlast : a.getLast hne = '\r' := by
      have := List.getLast?_eq_getLast a hne
      rw [h] at this
      exact (Option.some.inj this).symm
    conv_rhs => rw [← hdec]
    unfold collapse
    rw [words_append_all_ws _ (by
      intro c hc
      rcases List.mem_singleton.mp hc with rfl
      rw [hlast]
      rfl)]
  · rw [if_neg h]

/-- Splitting off everything after the first line feed: the Ollama/OpenAI
cleanup keeps only the first line (of the trimmed text), for any tail. -/
theorem firstLine_collapse {a : Str} (b : Str) (ha1 : a ≠ [])
    (ha2 : headNotWS a = true) (ha3 : '\n' ∉ a) :
    collapse ((linesFirst (trim (a ++ '\n' :: b))).getD fallbackMessage)
      = collapse a := by
  obtain ⟨c, a', rfl⟩ : ∃ c a', a = c :: a' := by
    cases a with
    | nil => exact absurd rfl ha1
    | cons c a' => exact ⟨c, a', rfl⟩
  have hc : isWS c = false := by simpa [headNotWS] using ha2
  have hldrop : ((c :: a') ++ '\n' :: b).dropWhile isWS = (c :: a') ++ '\n' :: b := by
    rw [List.cons_append, List.dropWhile_cons, if_neg (by simp [hc])]
  have hrev : ((c :: a') ++ '\n' :: b).reverse
      = b.reverse ++ '\n' :: (c :: a').reverse := by
    rw [List.reverse_append, List.reverse_cons, List.append_assoc]
    rfl
  unfold trim
  rw [hldrop]
  unfold rdropWS
  rw [hrev, List.dropWhile_append]
  have hnlws : isWS '\n' = true := rfl
  rcases hbd : b.reverse.dropWhile isWS with _ | ⟨d, r⟩
  · simp only [List.isEmpty_nil, if_pos rfl]
    rw [if_pos trivial, List.dropWhile_cons, if_pos hnlws]
    have hkey : ((c :: a').reverse.dropWhile isWS).reverse = rdropWS (c :: a') := rfl
    rw [hkey]
    have hrdne : rdropWS (c :: a') ≠ [] := by
      intro hnil
      have h2 := congrArg List.reverse hnil
      unfold rdropWS at h2
      rw [List.reverse_reverse] at h2
      have hall := List.dropWhile_eq_nil_iff.mp h2
      have hcmem : c ∈ (c :: a').reverse := by
        rw [List.mem_reverse]
        exact List.mem_cons_self c a'
      rw [hall c hcmem] at hc
      cases hc
    have hsub : ∀ x ∈ rdropWS (c :: a'), x ∈ c :: a' := by
      intro x hx
      unfold rdropWS at hx
      rw [List.mem_reverse] at hx
      have := (List.dropWhile_sublist (p := isWS) (l := (c :: a').reverse)).mem hx
      rwa [List.mem_reverse] at this
    have hnomem : '\n' ∉ rdropWS (c :: a') := fun hm => ha3 (hsub _ hm)
    rcases hrd : rdropWS (c :: a') with _ | ⟨e, t⟩
    · exact absurd hrd hrdne
    · unfold linesFirst
      rw [if_neg (by rw [← hrd]; exact hnomem)]
      rw [Option.getD_some, ← hrd]
      have : collapse (rdropWS (c :: a')) = collapse (c :: a') := by
        unfold collapse
        rw [words_rdropWS]
      exact this
  · simp only [List.isEmpty_cons]
    rw [if_neg Bool.false_ne_true]
    have hlfshape : ((d :: r) ++ '\n' :: (c :: a').reverse).reverse
        = (c :: a') ++ '\n' :: (d :: r).reverse := by
      rw [List.reverse_append, List.reverse_cons, List.reverse_reverse]
      simp
    rw [hlfshape]
    have hmemnl : '\n' ∈ (c :: a') ++ '\n' :: (d :: r).reverse :=
      List.mem_append_right _ (List.mem_cons_self _ _)
    unfold linesFirst
    rw [List.cons_append, if_pos (by rw [← List.cons_append]; exact hmemnl)]
    rw [← List.cons_append]
    rw [takeWhile_all_append (p := fun x => decide (x ≠ '\n')) _ (by
      intro x hx
      exact decide_eq_true (fun heq => ha3 (heq ▸ hx)))]
    rw [List.takeWhile_cons, if_neg (by simp), List.append_nil]
    rw [List.cons_append]
    show collapse (stripCR (c :: a')) = collapse (c :: a')
    exact collapse_stripCR _

/-- Replacing the line feed with a space does not change the collapsed form:
the Gemini cleanup keeps the material of every line. -/
theorem gemini_newline_space (a b : Str) :
    collapse (a ++ '\n' :: b) = collapse (a ++ ' ' :: b) := by
  unfold collapse
  rw [words_append_ws (by rfl) a b, words_append_ws (by rfl) a b]

/-- The output of the shared collapsing step is a collapsed single line with
no line feed in it. -/
theorem collapse_clean (s : Str) :
    isCollapsedLine (collapse s) = true ∧ '\n' ∉ collapse s :=
  ⟨isCollapsedLine_collapse s,
    newline_not_mem_of_wsIsSpace (isCollapsedLine_parts (isCollapsedLine_collapse s)).1⟩

/-! ## Claims about the adapters -/

/-- C2, counterexample: the claim says an *empty* text resolves to the fixed
fallback string in every adapter, but the Gemini adapter substitutes the
fallback only for an *absent* text: on a response whose first part carries the
empty string it returns the empty string, not `"chore: update files"`. -/
theorem claim_C2_counterexample :
    call_gemini_api ⟨some [⟨some ⟨some [⟨some []⟩]⟩⟩]⟩ = []
      ∧ fallbackMessage ≠ ([] : Str) := by
  exact ⟨rfl, by decide⟩

/-- C2 (amended): whenever an expected field is *absent* (`None`) at any
nesting level — no candidates list, empty candidates list, missing content,
missing parts, empty parts list, missing text, missing choices, null message,
null content — every adapter returns the fixed fallback string; a present but
empty text also yields the fallback in the Ollama and OpenAI adapters (whose
first-line step finds no line), but the Gemini adapter returns the empty
string in that case. -/
theorem claim_C2_amended_fallback_on_absence :
    (call_gemini_api ⟨none⟩ = fallbackMessage)
    ∧ (call_gemini_api ⟨some []⟩ = fallbackMessage)
    ∧ (∀ cs, call_gemini_api ⟨some (⟨none⟩ :: cs)⟩ = fallbackMessage)
    ∧ (∀ cs, call_gemini_api ⟨some (⟨some ⟨none⟩⟩ :: cs)⟩ = fallbackMessage)
    ∧ (∀ cs, call_gemini_api ⟨some (⟨some ⟨some []⟩⟩ :: cs)⟩ = fallbackMessage)
    ∧ (∀ cs ps, call_gemini_api ⟨some (⟨some ⟨some (⟨none⟩ :: ps)⟩⟩ :: cs)⟩
        = fallbackMessage)
    ∧ (call_ollama_api ⟨none⟩ = fallbackMessage)
    ∧ (call_ollama_api ⟨some []⟩ = fallbackMessage)
    ∧ (call_openai_api ⟨none⟩ = fallbackMessage)
    ∧ (call_openai_api ⟨some []⟩ = fallbackMessage)
    ∧ (∀ chs, call_openai_api ⟨some (⟨none⟩ :: chs)⟩ = fallbackMessage)
    ∧ (∀ chs, call_openai_api ⟨some (⟨some ⟨none⟩⟩ :: chs)⟩ = fallbackMessage)
    ∧ (∀ chs, call_openai_api ⟨some (⟨some ⟨some []⟩⟩ :: chs)⟩ = fallbackMessage) :=
  ⟨rfl, rfl, fun _ => rfl, fun _ => rfl, fun _ => rfl, fun _ _ => rfl,
    rfl, rfl, rfl, rfl, fun _ => rfl, fun _ => rfl, fun _ => rfl⟩

/-- C5, counterexample: the claim says the Ollama and OpenAI adapters return
the first line of every multi-line response, but both trim the text *before*
splitting off the first line: on `"\nfeat: x"`, whose first line is empty,
they return the material of the second line, not the (empty) first one. -/
theorem claim_C5_counterexample :
    call_ollama_api ⟨some (str "\nfeat: x")⟩ = str "feat: x"
    ∧ call_openai_api ⟨some [⟨some ⟨some (str "\nfeat: x")⟩⟩]⟩ = str "feat: x"
    ∧ (str "\nfeat: x").takeWhile (fun c => c ≠ '\n') = []
    ∧ str "feat: x" ≠ ([] : Str) := by
  exact ⟨rfl, rfl, rfl, by decide⟩

/-- C5 (amended): for every response text of the form `a ++ '\n' :: b` whose
first line `a` is nonempty and does not itself begin with whitespace (so that
trimming does not move the line boundary), the Ollama and OpenAI adapters
return the collapsed first line, discarding `b` entirely, whereas the Gemini
adapter treats the line feed exactly like a space: it keeps the material of
all lines and collapses every whitespace run into a single space, so its
result has no line feed. -/
theorem claim_C5_first_line_policy (a b : Str) (ha1 : a ≠ [])
    (ha2 : headNotWS a = true) (ha3 : '\n' ∉ a) :
    call_ollama_api ⟨some (a ++ '\n' :: b)⟩ = collapse a
    ∧ call_openai_api ⟨some [⟨some ⟨some (a ++ '\n' :: b)⟩⟩]⟩ = collapse a
    ∧ call_gemini_api ⟨some [⟨some ⟨some [⟨some (a ++ '\n' :: b)⟩]⟩⟩]⟩
        = collapse (a ++ ' ' :: b)
    ∧ '\n' ∉ call_gemini_api ⟨some [⟨some ⟨some [⟨some (a ++ '\n' :: b)⟩]⟩⟩]⟩ := by
  have hollama : call_ollama_api ⟨some (a ++ '\n' :: b)⟩ = collapse a :=
    firstLine_collapse b ha1 ha2 ha3
  have hopenai : call_openai_api ⟨some [⟨some ⟨some (a ++ '\n' :: b)⟩⟩]⟩ = collapse a :=
    firstLine_collapse b ha1 ha2 ha3
  have hgem : call_gemini_api ⟨some [⟨some ⟨some [⟨some (a ++ '\n' :: b)⟩]⟩⟩]⟩
      = collapse (a ++ ' ' :: b) := by
    have h0 : call_gemini_api ⟨some [⟨some ⟨some [⟨some (a ++ '\n' :: b)⟩]⟩⟩]⟩
        = collapse (trim (a ++ '\n' :: b)) := rfl
    rw [h0, collapse_trim, gemini_newline_space]
  refine ⟨hollama, hopenai, hgem, ?_⟩
  rw [hgem]
  exact (collapse_clean _).2

/-- Witness for C5 at the spec's own scenario input. -/
theorem claim_C5_witness :
    str "feat: add x" ≠ []
    ∧ headNotWS (str "feat: add x") = true
    ∧ '\n' ∉ str "feat: add x"
    ∧ call_ollama_api ⟨some (str "feat: add x" ++ '\n' :: str "extra chatter")⟩
        = collapse (str "feat: add x") :=
  ⟨by decide, by decide, by decide,
    (claim_C5_first_line_policy (str "feat: add x") (str "extra chatter")
      (by decide) (by decide) (by decide)).1⟩

/-- C6: the whitespace-collapsing sanitization is idempotent — on any string
already in collapsed single-line form (every whitespace character a single
space, no two adjacent, none leading or trailing), applying the collapsing
step returns the string unchanged. -/
theorem claim_C6_collapse_idempotent (s : Str) (h : isCollapsedLine s = true) :
    collapse s = s :=
  joinSpace_words_of_collapsed h

/-- Witness for C6 on a concrete collapsed commit message. -/
theorem claim_C6_witness :
    isCollapsedLine (str "feat: add login page") = true
    ∧ collapse (str "feat: add login page") = str "feat: add login page" :=
  ⟨by decide, claim_C6_collapse_idempotent (str "feat: add login page") (by decide)⟩

/-- C10: whatever the decoded upstream response, the string produced by each
adapter's extraction and sanitization is a collapsed single line: it contains
no line feed, no leading or trailing whitespace, and no two consecutive
whitespace characters — every internal separator is exactly one space. -/
theorem claim_C10_outputs_collapsed (g : GeminiResponse) (o : OllamaResponse)
    (p : OpenAIResponse) :
    (isCollapsedLine (call_gemini_api g) = true ∧ '\n' ∉ call_gemini_api g)
    ∧ (isCollapsedLine (call_ollama_api o) = true ∧ '\n' ∉ call_ollama_api o)
    ∧ (isCollapsedLine (call_openai_api p) = true ∧ '\n' ∉ call_openai_api p) :=
  ⟨collapse_clean _, collapse_clean _, collapse_clean _⟩

/-! ## Configuration model and provider resolution -/

/-- `ModelProvider` (src/main.rs:8-13). -/
inductive ModelProvider where
  | Gemini (api_key : Str) (model : Str)
  | Ollama (base_url : Str) (model : Str)
  | OpenAI (base_url : Str) (api_key : Option Str) (model : Str)
deriving DecidableEq

/-- `ProviderConfig` (src/main.rs:15-22). -/
structure ProviderConfig where
  model : Str
  api_key : Option Str
  url : Option Str
deriving DecidableEq

/-- `Config` (src/main.rs:24-32). -/
structure Config where
  default_provider : Str
  verbose : Bool
  gemini : ProviderConfig
  ollama : ProviderConfig
  openai : ProviderConfig
deriving DecidableEq

/-- The three environment variables the resolver reads
(`ACOMMIT_CONFIG`, `GEMINI_API_KEY`, `OPENAI_API_KEY`). -/
structure Env where
  acommit_config : Option Str
  gemini_api_key : Option Str
  openai_api_key : Option Str

/-- Outcome of reading and JSON-decoding one config file path: the file may
be missing, unreadable, malformed JSON, or decode to a `Config`. -/
inductive FileResult where
  | absent
  | unreadable
  | malformed
  | ok (c : Config)
deriving DecidableEq

/-- The file system visible to the resolver. -/
abbrev FileSys := Str → FileResult

/-- `load_config` (src/main.rs:229-233): `fs::read_to_string` then
`serde_json::from_str`, each failure propagated.  The exact io/serde error
text is abstracted; the embedded errors name the offending path. -/
def load_config (fs : FileSys) (path : Str) : Except Str Config :=
  match fs path with
  | .absent => .error (str "failed to read config file: " ++ path)
  | .unreadable => .error (str "failed to read config file: " ++ path)
  | .malformed => .error (str "invalid config file: " ++ path)
  | .ok c => .ok c

/-- `config_to_provider` (src/main.rs:235-270). -/
def config_to_provider (config : Config) (provider : Option Str) (env : Env) :
    Except Str (ModelProvider × Bool) :=
  let verbose := config.verbose
  let selected_provider := provider.getD config.default_provider
  if selected_provider = str "gemini" then
    match config.gemini.api_key.orElse (fun _ => env.gemini_api_key) with
    | some api_key => .ok (.Gemini api_key config.gemini.model, verbose)
    | none => .error (str "Gemini API key is required")
  else if selected_provider = str "ollama" then
    .ok (.Ollama (config.ollama.url.getD (str "http://localhost:11434"))
      config.ollama.model, verbose)
  else if selected_provider = str "openai" then
    match config.openai.url with
    | some base_url =>
      .ok (.OpenAI base_url
        (config.openai.api_key.orElse (fun _ => env.openai_api_key))
        config.openai.model, verbose)
    | none => .error (str "OpenAI URL is required")
  else
    .error (str "Unknown provider: " ++ selected_provider)

/-- The `--help`/`-h`/`--example-config`/`--setup` tokens, all of which exit
before resolution (src/main.rs:276-287). -/
def helpTok (a : Str) : Bool :=
  a = str "--help" || a = str "-h" || a = str "--example-config" || a = str "--setup"

/-- The first loop of `parse_args` (src/main.rs:293-307): scan for `--config`
and `--provider`, each taking the immediately following argument as value
(last occurrence wins) and failing when no following argument exists. -/
def scanLoop : List Str → Option Str × Option Str → Except Str (Option Str × Option Str)
  | [], st => .ok st
  | a :: rest, (config_path, selected_provider) =>
    if a = str "--config" then
      match rest.head? with
      | some path => scanLoop rest (some path, selected_provider)
      | none => .error (str "--config requires a path to config file")
    else if a = str "--provider" then
      match rest.head? with
      | some p => scanLoop rest (config_path, some p)
      | none => .error (str "--provider requires a provider name (gemini, ollama, openai)")
    else scanLoop rest (config_path, selected_provider)

/-- Rust `str::split_once('=')`: split at the first `=`, when present. -/
def splitOnceEq (s : Str) : Option (Str × Str) :=
  if '=' ∈ s then
    some (s.takeWhile (fun c => c ≠ '='), (s.dropWhile (fun c => c ≠ '=')).tail)
  else none

/-- The mutable locals of the flag loop of `parse_args`
(src/main.rs:322-327). -/
structure FlagState where
  gemini_api_key : Option Str := none
  ollama_url : Option Str := none
  openai_url : Option Str := none
  openai_api_key : Option Str := none
  model_name : Option Str := none
  verbose : Bool := false
deriving DecidableEq

def initFlags : FlagState := {}

/-- `args.iter().skip_while(|a| *a != arg).nth(1)` (src/main.rs:345 etc.):
the argument after the *first* occurrence of `tok` in the full argument list
(program name included). -/
def lookupAfterFirst (args : List Str) (tok : Str) : Option Str :=
  match args.dropWhile (fun a => a ≠ tok) with
  | _ :: next :: _ => some next
  | _ => none

/-- One iteration of the flag loop of `parse_args` (src/main.rs:330-373):
`--key=value` arguments match on the key and fail on an unknown key;
bare arguments match on the whole token, take the argument following their
first occurrence as value, and fall through silently when unrecognized. -/
def flagStep (args : List Str) (st : FlagState) (arg : Str) : Except Str FlagState :=
  match splitOnceEq arg with
  | some (key, value) =>
    if key = str "--gemini-key" || key = str "-gk" then
      .ok { st with gemini_api_key := some value }
    else if key = str "--ollama-url" || key = str "-ou" then
      .ok { st with ollama_url := some value }
    else if key = str "--openai" then
      .ok { st with openai_url := some value }
    else if key = str "--openai-key" || key = str "-ok" then
      .ok { st with openai_api_key := some value }
    else if key = str "--model" || key = str "-m" then
      .ok { st with model_name := some value }
    else if key = str "--verbose" then
      .ok { st with verbose := true }
    else
      .error (str "Unknown argument: " ++ key)
  | none =>
    if arg = str "--gemini-key" || arg = str "-gk" then
      .ok (match lookupAfterFirst args arg with
        | some next => { st with gemini_api_key := some next }
        | none => st)
    else if arg = str "--ollama-url" || arg = str "-ou" then
      .ok (match lookupAfterFirst args arg with
        | some next => { st with ollama_url := some next }
        | none => st)
    else if arg = str "--openai" then
      .ok (match lookupAfterFirst args arg with
        | some next => { st with openai_url := some next }
        | none => st)
    else if arg = str "--openai-key" || arg = str "-ok" then
      .ok (match lookupAfterFirst args arg with
        | some next => { st with openai_api_key := some next }
        | none => st)
    else if arg = str "--model" || arg = str "-m" then
      .ok (match lookupAfterFirst args arg with
        | some next => { st with model_name := some next }
        | none => st)
    else if arg = str "--verbose" then
      .ok { st with verbose := true }
    else
      .ok st

/-- The provider determination at the end of `parse_args`
(src/main.rs:384-420): an OpenAI url outranks an Ollama url, which outranks
a Gemini key; then the `GEMINI_API_KEY` environment fallback; then the
built-in Ollama default. -/
def resolveFlags (st : FlagState) (env : Env) : ModelProvider × Bool :=
  match st.openai_url with
  | some url =>
    (.OpenAI url (st.openai_api_key.orElse (fun _ => env.openai_api_key))
      (st.model_name.getD (str "gpt-3.5-turbo")), st.verbose)
  | none =>
    match st.ollama_url with
    | some url =>
      (.Ollama url (st.model_name.getD (str "llama3.2:3b")), st.verbose)
    | none =>
      match st.gemini_api_key with
      | some key =>
        (.Gemini key (st.model_name.getD (str "gemini-2.5-flash-lite")), st.verbose)
      | none =>
        match env.gemini_api_key with
        | some key =>
          (.Gemini key (st.model_name.getD (str "gemini-2.5-flash-lite")), st.verbose)
        | none =>
          (.Ollama (str "http://localhost:11434")
            (st.model_name.getD (str "llama3.2:3b")), st.verbose)

/-- Result of `parse_args`: the help/example/setup paths exit the process
before resolution; otherwise a provider and the verbose flag are resolved. -/
inductive ParseOutcome where
  | exited
  | resolved (provider : ModelProvider) (verbose : Bool)
deriving DecidableEq

/-- The help-flag loop of `parse_args` (src/main.rs:276-287). -/
def helpScan (args : List Str) : Bool := (args.drop 1).any helpTok

/-- `parse_args` (src/main.rs:272-421).  `args` is the full `env::args()`
list, program name first.  A config file named by `--config`, or else by
`ACOMMIT_CONFIG`, or else a present local `acommit.json`, takes the
config-file path through `config_to_provider`; only when none of the three
exists does the flag loop and its provider precedence run. -/
def parse_args (fs : FileSys) (env : Env) (args : List Str) :
    Except Str ParseOutcome :=
  if helpScan args then .ok .exited
  else
    match scanLoop (args.drop 1) (none, none) with
    | .error e => .error e
    | .ok (some path, selected_provider) =>
      (load_config fs path).bind fun config =>
        (config_to_provider config selected_provider env).map fun pv =>
          .resolved pv.1 pv.2
    | .ok (none, selected_provider) =>
      match env.acommit_config with
      | some path =>
        (load_config fs path).bind fun config =>
          (config_to_provider config selected_provider env).map fun pv =>
            .resolved pv.1 pv.2
      | none =>
        match fs (str "acommit.json") with
        | .absent =>
          ((args.drop 1).foldlM (flagStep args) initFlags).map fun st =>
            let pv := resolveFlags st env
            .resolved pv.1 pv.2
        | _ =>
          (load_config fs (str "acommit.json")).bind fun config =>
            (config_to_provider config selected_provider env).map fun pv =>
              .resolved pv.1 pv.2

/-! ## The `run` control flow, as a trace of external actions -/

/-- The observable external effects of `run`: git shell-outs and the one
backend HTTP call. -/
inductive Action where
  | gitStatus
  | gitDiffCached
  | gitDiffAll
  | apiCall (p : ModelProvider)
  | gitAdd
  | gitCommit (msg : Str)
deriving DecidableEq

/-- Oracle for the git commands `run` issues. -/
structure GitWorld where
  status_success : Bool
  status_out : Str
  diff_cached_out : Str
  diff_all_out : Str
  add_success : Bool
  commit_success : Bool

/-- `run` (src/main.rs:122-227), with transport and interaction abstracted
into oracles: resolution first, then git status, diff, the one API call,
confirmation, add, commit.  Returns the result together with the ordered
trace of external actions performed. -/
def run (fs : FileSys) (env : Env) (args : List Str) (gw : GitWorld)
    (api : ModelProvider → Except Str Str) (confirm_yes : Bool) :
    Except Str Unit × List Action :=
  match parse_args fs env args with
  | .error e => (.error e, [])
  | .ok .exited => (.ok (), [])
  | .ok (.resolved provider _) =>
    if gw.status_success = false then
      (.error (str "Not a git repository or git not found"), [.gitStatus])
    else if trim gw.status_out = [] then
      (.ok (), [.gitStatus])
    else
      let diffActs : List Action :=
        if trim gw.diff_cached_out = [] then [.gitDiffCached, .gitDiffAll]
        else [.gitDiffCached]
      let acts := Action.gitStatus :: diffActs ++ [.apiCall provider]
      match api provider with
      | .error e => (.error e, acts)
      | .ok msg =>
        if confirm_yes = false then
          (.ok (), acts)
        else if gw.add_success = false then
          (.error (str "Failed to add changes"), acts ++ [.gitAdd])
        else if gw.commit_success then
          (.ok (), acts ++ [.gitAdd, .gitCommit msg])
        else
          (.error (str "Failed to create commit"), acts ++ [.gitAdd, .gitCommit msg])

/-! ## Claims about provider resolution -/

/-- A config file whose `default_provider` is `ollama`, with URLs for the
ollama and openai blocks and no stored API keys. -/
def cfgFileC1 : Config :=
  ⟨str "ollama", false,
    ⟨str "gemini-2.5-flash-lite", none, none⟩,
    ⟨str "llama3.2:3b", none, some (str "http://filehost:11434")⟩,
    ⟨str "bitnet-model", none, some (str "http://filehost:7777/v1")⟩⟩

/-- A file system containing exactly a local `acommit.json` holding
`cfgFileC1`. -/
def fsWithLocalConfig : FileSys :=
  fun p => if p = str "acommit.json" then .ok cfgFileC1 else .absent

/-- An environment with both provider API keys set and no `ACOMMIT_CONFIG`. -/
def envAllSet : Env := ⟨none, some (str "envkey"), some (str "envokey")⟩

/-- Does resolution select the OpenAI-compatible provider? -/
def resolvesToOpenAI : Except Str ParseOutcome → Bool
  | .ok (.resolved (.OpenAI _ _ _) _) => true
  | _ => false

/-- C1, counterexample: with all four layers populated — the
provider-identifying CLI flag `--openai=http://clihost:8080/v1`, a discovered
`acommit.json` selecting ollama, the provider-selecting `GEMINI_API_KEY`
environment variable, and the built-in default — resolution returns the
config file's ollama selection, not the OpenAI-compatible provider the
claimed CLI-over-config precedence predicts: the config file, not the CLI,
wins. -/
theorem claim_C1_counterexample :
    parse_args fsWithLocalConfig envAllSet
        [str "acommit", str "--openai=http://clihost:8080/v1"]
      = .ok (.resolved (.Ollama (str "http://filehost:11434") (str "llama3.2:3b")) false)
    ∧ resolvesToOpenAI (parse_args fsWithLocalConfig envAllSet
        [str "acommit", str "--openai=http://clihost:8080/v1"]) = false :=
  ⟨rfl, rfl⟩

/-- C1 (amended): when a config file is discovered (here: a present local
`acommit.json`, with no `--config` path scanned and no `ACOMMIT_CONFIG`),
the config file takes precedence over every provider-identifying CLI flag:
resolution is exactly `config_to_provider` on the file with the scanned
`--provider` override, whatever other flags the argument list carries.
Within the file's blocks the per-field precedence is config-file value over
environment value: a stored gemini key wins over `GEMINI_API_KEY`, which is
used only when the file has none, and likewise `OPENAI_API_KEY` fills a
missing openai key. -/
theorem claim_C1_config_over_cli (fs : FileSys) (env : Env) (args : List Str)
    (cfg : Config) (sp : Option Str)
    (hhelp : helpScan args = false)
    (hscan : scanLoop (args.drop 1) (none, none) = .ok (none, sp))
    (henv : env.acommit_config = none)
    (hfs : fs (str "acommit.json") = .ok cfg) :
    parse_args fs env args
      = (config_to_provider cfg sp env).map (fun pv => .resolved pv.1 pv.2)
    ∧ (∀ k, cfg.gemini.api_key = some k →
        config_to_provider cfg (some (str "gemini")) env
          = .ok (.Gemini k cfg.gemini.model, cfg.verbose))
    ∧ (∀ ek, cfg.gemini.api_key = none → env.gemini_api_key = some ek →
        config_to_provider cfg (some (str "gemini")) env
          = .ok (.Gemini ek cfg.gemini.model, cfg.verbose))
    ∧ (∀ okey u, cfg.openai.api_key = none → env.openai_api_key = some okey →
        cfg.openai.url = some u →
        config_to_provider cfg (some (str "openai")) env
          = .ok (.OpenAI u (some okey) cfg.openai.model, cfg.verbose)) := by
  refine ⟨?_, ?_, ?_, ?_⟩
  · unfold parse_args
    rw [hhelp, hscan, henv, hfs]
    show (load_config fs (str "acommit.json")).bind _ = _
    unfold load_config
    rw [hfs]
    rfl
  · intro k hk
    unfold config_to_provider
    simp [hk, Option.orElse]
  · intro ek hk henvk
    unfold config_to_provider
    simp [hk, henvk, Option.orElse]
  · intro okey u hk henvk hurl
    unfold config_to_provider
    simp [hk, henvk, hurl, Option.orElse, str]

/-- Witness for C1 (amended) at the counterexample's concrete input. -/
theorem claim_C1_witness :
    helpScan [str "acommit", str "--openai=http://clihost:8080/v1"] = false
    ∧ scanLoop ([str "acommit", str "--openai=http://clihost:8080/v1"].drop 1)
        (none, none) = .ok (none, none)
    ∧ envAllSet.acommit_config = none
    ∧ fsWithLocalConfig (str "acommit.json") = .ok cfgFileC1
    ∧ parse_args fsWithLocalConfig envAllSet
        [str "acommit", str "--openai=http://clihost:8080/v1"]
      = (config_to_provider cfgFileC1 none envAllSet).map
          (fun pv => .resolved pv.1 pv.2) :=
  ⟨rfl, rfl, rfl, rfl,
    (claim_C1_config_over_cli fsWithLocalConfig envAllSet
      [str "acommit", str "--openai=http://clihost:8080/v1"] cfgFileC1 none
      rfl rfl rfl rfl).1⟩

/-- C3: whenever the selected provider name — the `--provider` value if one
was scanned, otherwise the file's `default_provider` — is none of `gemini`,
`ollama`, `openai`, `config_to_provider` fails with an error naming the
unknown provider; it never substitutes a default. -/
theorem claim_C3_unknown_provider_error (cfg : Config) (provider : Option Str)
    (env : Env)
    (h1 : provider.getD cfg.default_provider ≠ str "gemini")
    (h2 : provider.getD cfg.default_provider ≠ str "ollama")
    (h3 : provider.getD cfg.default_provider ≠ str "openai") :
    config_to_provider cfg provider env
      = .error (str "Unknown provider: " ++ provider.getD cfg.default_provider) := by
  unfold config_to_provider
  rw [if_neg h1, if_neg h2, if_neg h3]

/-- Witness for C3 on a config file defaulting to a provider `claude`. -/
theorem claim_C3_witness :
    (none : Option Str).getD (str "claude") ≠ str "gemini"
    ∧ config_to_provider
        ⟨str "claude", false, ⟨[], none, none⟩, ⟨[], none, none⟩, ⟨[], none, none⟩⟩
        none envAllSet
      = .error (str "Unknown provider: claude") :=
  ⟨by decide,
    claim_C3_unknown_provider_error
      ⟨str "claude", false, ⟨[], none, none⟩, ⟨[], none, none⟩, ⟨[], none, none⟩⟩
      none envAllSet (by decide) (by decide) (by decide)⟩

/-- C4: with no config file in use, when several provider-identifying flags
are passed in one invocation — in either order — an `--openai` URL outranks
an `--ollama-url`, which outranks a `--gemini-key`; the values, the program
name and the remaining environment keys are arbitrary. -/
theorem claim_C4_flag_precedence (gk okey : Option Str) (u1 u2 k prog : Str) :
    parse_args (fun _ => .absent) ⟨none, gk, okey⟩
        [prog, str "--gemini-key=" ++ k, str "--ollama-url=" ++ u2,
          str "--openai=" ++ u1]
      = .ok (.resolved (.OpenAI u1 okey (str "gpt-3.5-turbo")) false)
    ∧ parse_args (fun _ => .absent) ⟨none, gk, okey⟩
        [prog, str "--openai=" ++ u1, str "--ollama-url=" ++ u2,
          str "--gemini-key=" ++ k]
      = .ok (.resolved (.OpenAI u1 okey (str "gpt-3.5-turbo")) false)
    ∧ parse_args (fun _ => .absent) ⟨none, gk, okey⟩
        [prog, str "--gemini-key=" ++ k, str "--ollama-url=" ++ u2]
      = .ok (.resolved (.Ollama u2 (str "llama3.2:3b")) false)
    ∧ parse_args (fun _ => .absent) ⟨none, gk, okey⟩
        [prog, str "--ollama-url=" ++ u2, str "--gemini-key=" ++ k]
      = .ok (.resolved (.Ollama u2 (str "llama3.2:3b")) false)
    ∧ parse_args (fun _ => .absent) ⟨none, gk, okey⟩
        [prog, str "--gemini-key=" ++ k]
      = .ok (.resolved (.Gemini k (str "gemini-2.5-flash-lite")) false) :=
  ⟨rfl, rfl, rfl, rfl, rfl⟩

/-- C8: whenever a config file path is specified — by a scanned `--config`
value, or by `ACOMMIT_CONFIG` when no `--config` was scanned — and the file
does not load (missing, unreadable, or invalid JSON), resolution fails with
an error and `run` returns that error having performed no git command and no
network call: its action trace is empty. -/
theorem claim_C8_config_error_aborts (fs : FileSys) (env : Env) (args : List Str)
    (gw : GitWorld) (api : ModelProvider → Except Str Str) (confirm : Bool) :
    (∀ path sp, helpScan args = false →
      scanLoop (args.drop 1) (none, none) = .ok (some path, sp) →
      (∀ cfg, fs path ≠ .ok cfg) →
      ∃ e, parse_args fs env args = .error e
        ∧ run fs env args gw api confirm = (.error e, []))
    ∧ (∀ path sp, helpScan args = false →
      scanLoop (args.drop 1) (none, none) = .ok (none, sp) →
      env.acommit_config = some path →
      (∀ cfg, fs path ≠ .ok cfg) →
      ∃ e, parse_args fs env args = .error e
        ∧ run fs env args gw api confirm = (.error e, [])) := by
  have hload : ∀ path, (∀ cfg, fs path ≠ .ok cfg) →
      ∃ e, load_config fs path = .error e := by
    intro path hbad
    unfold load_config
    cases hfs : fs path with
    | absent => exact ⟨_, rfl⟩
    | unreadable => exact ⟨_, rfl⟩
    | malformed => exact ⟨_, rfl⟩
    | ok c => exact absurd hfs (hbad c)
  constructor
  · intro path sp hhelp hscan hbad
    obtain ⟨e, he⟩ := hload path hbad
    have hp : parse_args fs env args = .error e := by
      unfold parse_args
      rw [hhelp, hscan]
      show (load_config fs path).bind _ = _
      rw [he]
      rfl
    refine ⟨e, hp, ?_⟩
    unfold run
    rw [hp]
  · intro path sp hhelp hscan henv hbad
    obtain ⟨e, he⟩ := hload path hbad
    have hp : parse_args fs env args = .error e := by
      unfold parse_args
      rw [hhelp, hscan, henv]
      show (load_config fs path).bind _ = _
      rw [he]
      rfl
    refine ⟨e, hp, ?_⟩
    unfold run
    rw [hp]

/-- Witness for C8: `--config cfg.json` over a file system on which every
read yields invalid JSON. -/
theorem claim_C8_witness :
    helpScan [str "acommit", str "--config", str "cfg.json"] = false
    ∧ scanLoop ([str "acommit", str "--config", str "cfg.json"].drop 1)
        (none, none) = .ok (some (str "cfg.json"), none)
    ∧ (∃ e, parse_args (fun _ => .malformed) envAllSet
          [str "acommit", str "--config", str "cfg.json"] = .error e
        ∧ run (fun _ => .malformed) envAllSet
            [str "acommit", str "--config", str "cfg.json"]
            ⟨true, str " M x", [], [], true, true⟩ (fun _ => .ok []) true
          = (.error e, [])) :=
  ⟨rfl, rfl,
    (claim_C8_config_error_aborts (fun _ => .malformed) envAllSet
        [str "acommit", str "--config", str "cfg.json"]
        ⟨true, str " M x", [], [], true, true⟩ (fun _ => .ok []) true).1
      (str "cfg.json") none rfl rfl (fun _ h => FileResult.noConfusion h)⟩

/-! ## Unknown flags and stray tokens -/

/-- The nine value-taking flag tokens of the flag loop. -/
def valueFlagTok (t : Str) : Bool :=
  t = str "--gemini-key" || t = str "-gk" || t = str "--ollama-url" || t = str "-ou"
    || t = str "--openai" || t = str "--openai-key" || t = str "-ok"
    || t = str "--model" || t = str "-m"

/-- The tokens the flag loop recognizes (value-taking flags and
`--verbose`); equal-form keys outside this set are fatal, bare tokens
outside it are skipped. -/
def recognizedTok (t : Str) : Bool := valueFlagTok t || t = str "--verbose"

/-- An argument that cannot make the flag loop fail: either it has no `=`,
or its key is recognized. -/
def eqFormOk (t : Str) : Bool :=
  match splitOnceEq t with
  | none => true
  | some (k, _) => recognizedTok k

theorem valueFlagTok_enum {t : Str} (h : valueFlagTok t = true) :
    t = str "--gemini-key" ∨ t = str "-gk" ∨ t = str "--ollama-url"
      ∨ t = str "-ou" ∨ t = str "--openai" ∨ t = str "--openai-key"
      ∨ t = str "-ok" ∨ t = str "--model" ∨ t = str "-m" := by
  simpa [valueFlagTok, Bool.or_eq_true, or_assoc] using h

theorem valueFlagTok_not_special {t : Str} (h : valueFlagTok t = true) :
    t ≠ str "--provider" ∧ t ≠ str "--config" ∧ helpTok t = false := by
  rcases valueFlagTok_enum h with rfl | rfl | rfl | rfl | rfl | rfl | rfl | rfl | rfl <;>
    exact ⟨by decide, by decide, by decide⟩

/-- `split_once('=')` on a key, `=`, value concatenation. -/
theorem splitOnceEq_append_eq {key : Str} (value : Str) (h : '=' ∉ key) :
    splitOnceEq (key ++ '=' :: value) = some (key, value) := by
  unfold splitOnceEq
  rw [if_pos (List.mem_append_right _ (List.mem_cons_self _ _))]
  rw [takeWhile_all_append (p := fun c => c ≠ '=') _
    (fun x hx => decide_eq_true (fun heq => h (heq ▸ hx)))]
  rw [dropWhile_all_append (p := fun c => c ≠ '=') _
    (fun x hx => decide_eq_true (fun heq => h (heq ▸ hx)))]
  rw [List.takeWhile_cons, if_neg (by simp), List.append_nil,
    List.dropWhile_cons, if_neg (by simp)]
  rfl

/-- `flagStep` consults the argument list only through
`lookupAfterFirst _ t`, so lists agreeing there act identically. -/
theorem flagStep_agree {args1 args2 : List Str} (st : FlagState) (t : Str)
    (h : valueFlagTok t = true →
      lookupAfterFirst args1 t = lookupAfterFirst args2 t) :
    flagStep args1 st t = flagStep args2 st t := by
  cases hsp : splitOnceEq t with
  | some kv =>
    unfold flagStep
    simp only [hsp]
  | none =>
    unfold flagStep
    simp only [hsp]
    split_ifs with h1 h2 h3 h4 h5 h6
    · have hd : t = str "--gemini-key" ∨ t = str "-gk" := by simpa using h1
      rcases hd with rfl | rfl <;> rw [h (by decide)]
    · have hd : t = str "--ollama-url" ∨ t = str "-ou" := by simpa using h2
      rcases hd with rfl | rfl <;> rw [h (by decide)]
    · have hd : t = str "--openai" := by simpa using h3
      subst hd
      rw [h (by decide)]
    · have hd : t = str "--openai-key" ∨ t = str "-ok" := by simpa using h4
      rcases hd with rfl | rfl <;> rw [h (by decide)]
    · have hd : t = str "--model" ∨ t = str "-m" := by simpa using h5
      rcases hd with rfl | rfl <;> rw [h (by decide)]
    · rfl
    · rfl

/-- A bare token the flag loop does not recognize is skipped: the state is
returned unchanged. -/
theorem flagStep_neutral (args : List Str) (st : FlagState) (t : Str)
    (h1 : splitOnceEq t = none) (h2 : recognizedTok t = false) :
    flagStep args st t = .ok st := by
  unfold flagStep
  simp only [h1]
  split_ifs with g1 g2 g3 g4 g5 g6
  · have hd : t = str "--gemini-key" ∨ t = str "-gk" := by simpa using g1
    rcases hd with rfl | rfl <;> exact absurd h2 (by decide)
  · have hd : t = str "--ollama-url" ∨ t = str "-ou" := by simpa using g2
    rcases hd with rfl | rfl <;> exact absurd h2 (by decide)
  · have hd : t = str "--openai" := by simpa using g3
    subst hd
    exact absurd h2 (by decide)
  · have hd : t = str "--openai-key" ∨ t = str "-ok" := by simpa using g4
    rcases hd with rfl | rfl <;> exact absurd h2 (by decide)
  · have hd : t = str "--model" ∨ t = str "-m" := by simpa using g5
    rcases hd with rfl | rfl <;> exact absurd h2 (by decide)
  · have hd : t = str "--verbose" := by simpa using g6
    subst hd
    exact absurd h2 (by decide)
  · rfl

/-- An `=`-form argument with an unrecognized key is fatal, with the
`Unknown argument` error naming the key. -/
theorem flagStep_eq_unknown (args : List Str) (st : FlagState) {t key value : Str}
    (h1 : splitOnceEq t = some (key, value)) (h2 : recognizedTok key = false) :
    flagStep args st t = .error (str "Unknown argument: " ++ key) := by
  unfold flagStep
  simp only [h1]
  split_ifs with g1 g2 g3 g4 g5 g6
  · have hd : key = str "--gemini-key" ∨ key = str "-gk" := by simpa using g1
    rcases hd with rfl | rfl <;> exact absurd h2 (by decide)
  · have hd : key = str "--ollama-url" ∨ key = str "-ou" := by simpa using g2
    rcases hd with rfl | rfl <;> exact absurd h2 (by decide)
  · have hd : key = str "--openai" := by simpa using g3
    subst hd
    exact absurd h2 (by decide)
  · have hd : key = str "--openai-key" ∨ key = str "-ok" := by simpa using g4
    rcases hd with rfl | rfl <;> exact absurd h2 (by decide)
  · have hd : key = str "--model" ∨ key = str "-m" := by simpa using g5
    rcases hd with rfl | rfl <;> exact absurd h2 (by decide)
  · have hd : key = str "--verbose" := by simpa using g6
    subst hd
    exact absurd h2 (by decide)
  · rfl

/-- A benign argument (no `=`, or a recognized key) never makes `flagStep`
fail. -/
theorem flagStep_ok_of_eqFormOk (args : List Str) (st : FlagState) {t : Str}
    (h : eqFormOk t = true) : ∃ st', flagStep args st t = .ok st' := by
  cases hsp : splitOnceEq t with
  | none =>
    unfold flagStep
    simp only [hsp]
    split_ifs <;> exact ⟨_, rfl⟩
  | some kv =>
    rcases kv with ⟨k, v⟩
    simp only [eqFormOk, hsp] at h
    unfold flagStep
    simp only [hsp]
    split_ifs with g1 g2 g3 g4 g5 g6
    · exact ⟨_, rfl⟩
    · exact ⟨_, rfl⟩
    · exact ⟨_, rfl⟩
    · exact ⟨_, rfl⟩
    · exact ⟨_, rfl⟩
    · exact ⟨_, rfl⟩
    · exfalso
      have henum : k = str "--gemini-key" ∨ k = str "-gk" ∨ k = str "--ollama-url"
          ∨ k = str "-ou" ∨ k = str "--openai" ∨ k = str "--openai-key"
          ∨ k = str "-ok" ∨ k = str "--model" ∨ k = str "-m"
          ∨ k = str "--verbose" := by
        simpa [recognizedTok, valueFlagTok, or_assoc] using h
      rcases henum with rfl | rfl | rfl | rfl | rfl | rfl | rfl | rfl | rfl | rfl
      · exact g1 (by decide)
      · exact g1 (by decide)
      · exact g2 (by decide)
      · exact g2 (by decide)
      · exact g3 (by decide)
      · exact g4 (by decide)
      · exact g4 (by decide)
      · exact g5 (by decide)
      · exact g5 (by decide)
      · exact g6 (by decide)

/-- Whether `flagStep` fails depends only on the argument token, never on
the argument list or the running state. -/
theorem flagStep_ok_transfer {argsA : List Str} {stA : FlagState} {t : Str}
    {s : FlagState} (h : flagStep argsA stA t = .ok s) (args : List Str)
    (st : FlagState) : ∃ s', flagStep args st t = .ok s' := by
  cases hsp : splitOnceEq t with
  | none =>
    exact flagStep_ok_of_eqFormOk args st (by simp [eqFormOk, hsp])
  | some kv =>
    rcases kv with ⟨k, v⟩
    cases hk : recognizedTok k with
    | true => exact flagStep_ok_of_eqFormOk args st (by simp [eqFormOk, hsp, hk])
    | false =>
      rw [flagStep_eq_unknown argsA stA hsp hk] at h
      cases h

/-! ### Fold lemmas for the flag loop -/

theorem foldlM_flagStep_congr {args1 args2 : List Str} {L : List Str}
    (h : ∀ t ∈ L, valueFlagTok t = true →
      lookupAfterFirst args1 t = lookupAfterFirst args2 t) :
    ∀ st, L.foldlM (flagStep args1) st = L.foldlM (flagStep args2) st := by
  induction L with
  | nil => intro _; rfl
  | cons a L ih =>
    intro st
    rw [List.foldlM_cons, List.foldlM_cons,
      flagStep_agree st a (h a (List.mem_cons_self a L))]
    cases hg : flagStep args2 st a with
    | error e => rfl
    | ok s => exact ih (fun t ht hv => h t (List.mem_cons_of_mem a ht) hv) s

theorem foldlM_flagStep_neutral {args : List Str} {ins : List Str}
    (h : ∀ t ∈ ins, splitOnceEq t = none ∧ recognizedTok t = false) :
    ∀ st, ins.foldlM (flagStep args) st = .ok st := by
  induction ins with
  | nil => intro _; rfl
  | cons a ins ih =>
    intro st
    rw [List.foldlM_cons,
      flagStep_neutral args st a (h a (List.mem_cons_self a ins)).1
        (h a (List.mem_cons_self a ins)).2]
    exact ih (fun t ht => h t (List.mem_cons_of_mem a ht)) st

theorem foldlM_flagStep_ok {L : List Str} (hL : ∀ t ∈ L, eqFormOk t = true)
    (args : List Str) : ∀ st, ∃ st', L.foldlM (flagStep args) st = .ok st' := by
  induction L with
  | nil => intro st; exact ⟨st, rfl⟩
  | cons a L ih =>
    intro st
    obtain ⟨s1, hs1⟩ := flagStep_ok_of_eqFormOk args st (hL a (List.mem_cons_self a L))
    obtain ⟨s2, hs2⟩ := ih (fun t ht => hL t (List.mem_cons_of_mem a ht)) s1
    refine ⟨s2, ?_⟩
    rw [List.foldlM_cons, hs1]
    exact hs2

theorem foldlM_flagStep_ok_transfer {argsA : List Str} :
    ∀ {L : List Str} {stA st' : FlagState},
    L.foldlM (flagStep argsA) stA = .ok st' →
    ∀ args st, ∃ s, L.foldlM (flagStep args) st = .ok s := by
  intro L
  induction L with
  | nil => intro stA st' _ args st; exact ⟨st, rfl⟩
  | cons a L ih =>
    intro stA st' h args st
    rw [List.foldlM_cons] at h
    cases ha : flagStep argsA stA a with
    | error e =>
      rw [ha] at h
      have h' : (Except.error e : Except Str FlagState) = .ok st' := h
      cases h'
    | ok s1 =>
      rw [ha] at h
      have h' : L.foldlM (flagStep argsA) s1 = .ok st' := h
      obtain ⟨s2, hstep⟩ := flagStep_ok_transfer ha args st
      obtain ⟨s3, hrest⟩ := ih h' args s2
      refine ⟨s3, ?_⟩
      rw [List.foldlM_cons, hstep]
      exact hrest

/-! ### `lookupAfterFirst` under insertion -/

theorem dropWhile_ne_of_all {tok : Str} : ∀ {L1 : List Str} (L2 : List Str),
    (∀ a ∈ L1, a ≠ tok) →
    (L1 ++ L2).dropWhile (fun a => a ≠ tok) = L2.dropWhile (fun a => a ≠ tok) := by
  intro L1
  induction L1 with
  | nil => intro L2 _; rfl
  | cons a L1 ih =>
    intro L2 h
    rw [List.cons_append, List.dropWhile_cons,
      if_pos (decide_eq_true (h a (List.mem_cons_self a L1)))]
    exact ih L2 (fun x hx => h x (List.mem_cons_of_mem a hx))

/-- Inserting tokens different from `tok`, not directly after the last
element of the prefix, leaves the argument after the first occurrence of
`tok` unchanged. -/
theorem lookupAfterFirst_insert {ins post : List Str} {tok : Str}
    (hins : ∀ a ∈ ins, a ≠ tok) :
    ∀ {pre : List Str}, (∀ x, pre.getLast? = some x → x ≠ tok) →
    lookupAfterFirst (pre ++ ins ++ post) tok = lookupAfterFirst (pre ++ post) tok := by
  intro pre
  induction pre with
  | nil =>
    intro _
    show lookupAfterFirst (ins ++ post) tok = lookupAfterFirst post tok
    unfold lookupAfterFirst
    rw [dropWhile_ne_of_all post hins]
  | cons a pre ih =>
    intro hlast
    by_cases ha : a = tok
    · subst ha
      unfold lookupAfterFirst
      rw [List.cons_append, List.cons_append, List.cons_append,
        List.dropWhile_cons, List.dropWhile_cons, if_neg (by simp), if_neg (by simp)]
      cases pre with
      | nil => exact absurd (hlast a rfl) (by simp)
      | cons b pre' =>
        rw [List.cons_append, List.cons_append]
        rfl
    · have hlast' : ∀ x, pre.getLast? = some x → x ≠ tok := by
        intro x hx
        apply hlast
        cases pre with
        | nil => cases hx
        | cons b pre' => rw [List.getLast?_cons_cons]; exact hx
      have hstep := ih hlast'
      unfold lookupAfterFirst at hstep ⊢
      rw [List.cons_append, List.cons_append, List.cons_append,
        List.dropWhile_cons, List.dropWhile_cons,
        if_pos (decide_eq_true ha), if_pos (decide_eq_true ha)]
      exact hstep

/-! ### `scanLoop` lemmas -/

theorem scanLoop_cons_other {a : Str} (h1 : a ≠ str "--config")
    (h2 : a ≠ str "--provider") (rest : List Str)
    (st : Option Str × Option Str) :
    scanLoop (a :: rest) st = scanLoop rest st := by
  rcases st with ⟨cp, sp⟩
  unfold scanLoop
  rw [if_neg h1, if_neg h2]
  cases rest with
  | nil => rfl
  | cons b rest' => rfl

theorem scanLoop_skip {L : List Str}
    (h : ∀ t ∈ L, t ≠ str "--config" ∧ t ≠ str "--provider") :
    ∀ st, scanLoop L st = .ok st := by
  induction L with
  | nil => intro _; rfl
  | cons a L ih =>
    intro st
    rw [scanLoop_cons_other (h a (List.mem_cons_self a L)).1
      (h a (List.mem_cons_self a L)).2]
    exact ih (fun t ht => h t (List.mem_cons_of_mem a ht)) st

theorem scanLoop_append_skip {L1 L2 : List Str}
    (h : ∀ t ∈ L1, t ≠ str "--config" ∧ t ≠ str "--provider") :
    ∀ st, scanLoop (L1 ++ L2) st = scanLoop L2 st := by
  induction L1 with
  | nil => intro _; rfl
  | cons a L1 ih =>
    intro st
    rw [List.cons_append, scanLoop_cons_other (h a (List.mem_cons_self a L1)).1
      (h a (List.mem_cons_self a L1)).2]
    exact ih (fun t ht => h t (List.mem_cons_of_mem a ht)) st

theorem scanLoop_cp_none : ∀ {L : List Str} {sp : Option Str} {cp' sp' : Option Str},
    str "--config" ∉ L → scanLoop L (none, sp) = .ok (cp', sp') → cp' = none := by
  intro L
  induction L with
  | nil =>
    intro sp cp' sp' _ h
    injection h with h'
    injection h' with h1 h2
    exact h1.symm
  | cons a L ih =>
    intro sp cp' sp' hc h
    have ha : a ≠ str "--config" := fun heq => hc (heq ▸ List.mem_cons_self a L)
    unfold scanLoop at h
    rw [if_neg ha] at h
    by_cases hp : a = str "--provider"
    · rw [if_pos hp] at h
      cases hh : L.head? with
      | none => rw [hh] at h; cases h
      | some p =>
        rw [hh] at h
        exact ih (fun hm => hc (List.mem_cons_of_mem a hm)) h
    · rw [if_neg hp] at h
      exact ih (fun hm => hc (List.mem_cons_of_mem a hm)) h

/-- Whether `scanLoop` succeeds, and the config-path component it returns,
do not depend on the provider component of its running state. -/
theorem scanLoop_sp_irrel : ∀ (L : List Str) (cp sp1 sp2 : Option Str)
    {cp' r1 : Option Str}, scanLoop L (cp, sp1) = .ok (cp', r1) →
    ∃ r2, scanLoop L (cp, sp2) = .ok (cp', r2) := by
  intro L
  induction L with
  | nil =>
    intro cp sp1 sp2 cp' r1 h
    injection h with h'
    injection h' with h1 h2
    subst h1
    exact ⟨sp2, rfl⟩
  | cons a L ih =>
    intro cp sp1 sp2 cp' r1 h
    unfold scanLoop at h ⊢
    by_cases hc : a = str "--config"
    · rw [if_pos hc] at h ⊢
      revert h
      cases hh : L.head? with
      | none => intro h; simp at h
      | some p => intro h; exact ih (some p) sp1 sp2 h
    · rw [if_neg hc] at h ⊢
      by_cases hp : a = str "--provider"
      · rw [if_pos hp] at h ⊢
        revert h
        cases hh : L.head? with
        | none => intro h; simp at h
        | some p => intro h; exact ⟨r1, h⟩
      · rw [if_neg hp] at h ⊢
        exact ih cp sp1 sp2 h

/-- Inserting one token that is neither `--config` nor `--provider` into an
argument list with no `--config` keeps the scan successful with no config
path. -/
theorem scanLoop_insert {t : Str} (hc : t ≠ str "--config")
    (hp : t ≠ str "--provider") :
    ∀ (L1 L2 : List Str) (sp : Option Str) {r : Option Str},
    str "--config" ∉ L1 →
    scanLoop (L1 ++ L2) (none, sp) = .ok (none, r) →
    ∃ r', scanLoop (L1 ++ t :: L2) (none, sp) = .ok (none, r') := by
  intro L1
  induction L1 with
  | nil =>
    intro L2 sp r _ h
    show ∃ r', scanLoop (t :: L2) (none, sp) = .ok (none, r')
    unfold scanLoop
    rw [if_neg hc, if_neg hp]
    exact ⟨r, h⟩
  | cons a L1 ih =>
    intro L2 sp r hc1 h
    have ha : a ≠ str "--config" := fun heq => hc1 (heq ▸ List.mem_cons_self a L1)
    rw [List.cons_append] at h
    rw [List.cons_append]
    unfold scanLoop at h ⊢
    rw [if_neg ha] at h ⊢
    by_cases hap : a = str "--provider"
    · rw [if_pos hap] at h ⊢
      cases L1 with
      | nil =>
        cases hh : L2.head? with
        | none => rw [show ([] ++ L2 : List Str).head? = L2.head? from rfl, hh] at h; cases h
        | some p =>
          rw [show ([] ++ L2 : List Str).head? = L2.head? from rfl, hh] at h
          show ∃ r', scanLoop (t :: L2) (none, some t) = .ok (none, r')
          unfold scanLoop
          rw [if_neg hc, if_neg hp]
          exact scanLoop_sp_irrel L2 none (some p) (some t) h
      | cons b L1' =>
        show ∃ r', scanLoop ((b :: L1') ++ t :: L2) (none, some b) = .ok (none, r')
        exact ih L2 (some b) (fun hm => hc1 (List.mem_cons_of_mem a hm)) h
    · rw [if_neg hap] at h ⊢
      exact ih L2 sp (fun hm => hc1 (List.mem_cons_of_mem a hm)) h

/-- Inserting tokens on which the predicate is false leaves `any`
unchanged. -/
theorem any_insert {L1 L2 ins : List Str} {f : Str → Bool}
    (h : ∀ t ∈ ins, f t = false) :
    (L1 ++ ins ++ L2).any f = (L1 ++ L2).any f := by
  have hins : ins.any f = false := by
    cases hi : ins.any f
    · rfl
    · obtain ⟨x, hx, hfx⟩ := List.any_eq_true.mp hi
      rw [h x hx] at hfx
      cases hfx
  rw [List.append_assoc, List.any_append, List.any_append, List.any_append, hins]
  simp

/-! ### Assembling `parse_args` facts -/

/-- With no config file in use, `parse_args` is the flag loop followed by the
provider determination. -/
theorem parse_args_flags {fs : FileSys} {env : Env} {args : List Str}
    {sp : Option Str}
    (hhelp : helpScan args = false)
    (hscan : scanLoop (args.drop 1) (none, none) = .ok (none, sp))
    (henv : env.acommit_config = none)
    (hfs : fs (str "acommit.json") = .absent) :
    parse_args fs env args
      = ((args.drop 1).foldlM (flagStep args) initFlags).map fun st =>
          .resolved (resolveFlags st env).1 (resolveFlags st env).2 := by
  unfold parse_args
  rw [hhelp, hscan, henv, hfs]
  rfl

theorem valueFlagTok_false_of_recognized_false {a : Str}
    (h : recognizedTok a = false) : valueFlagTok a = false := by
  unfold recognizedTok at h
  cases hv : valueFlagTok a
  · rfl
  · rw [hv] at h
    cases h

/-- Folding the flag loop over a list with a run of skipped tokens inserted
equals folding over the list without them. -/
theorem foldlM_insert_list_neutral {args : List Str} {ins : List Str}
    (hins : ∀ t ∈ ins, splitOnceEq t = none ∧ recognizedTok t = false)
    (L1 L2 : List Str) (st : FlagState) :
    (L1 ++ ins ++ L2).foldlM (flagStep args) st
      = (L1 ++ L2).foldlM (flagStep args) st := by
  rw [List.foldlM_append _ _ (L1 ++ ins) L2, List.foldlM_append _ _ L1 ins,
    List.foldlM_append _ _ L1 L2]
  cases h1 : L1.foldlM (flagStep args) st with
  | error e => rfl
  | ok s =>
    show ((ins.foldlM (flagStep args) s) >>= _) = _
    rw [foldlM_flagStep_neutral hins s]

/-- Folding the flag loop over a list with one benign token inserted still
succeeds whenever folding over the base list succeeds — for any argument
list driving the lookups and any start state. -/
theorem foldlM_insert_ok {argsA : List Str} {L1 L2 : List Str}
    {st0 stB : FlagState} {t : Str}
    (h : (L1 ++ L2).foldlM (flagStep argsA) st0 = .ok stB)
    (ht1 : splitOnceEq t = none) (ht2 : recognizedTok t = false)
    (args : List Str) (st : FlagState) :
    ∃ s, (L1 ++ t :: L2).foldlM (flagStep args) st = .ok s := by
  rw [List.foldlM_append _ _ L1 L2] at h
  cases h1 : L1.foldlM (flagStep argsA) st0 with
  | error e =>
    rw [h1] at h
    have h' : (Except.error e : Except Str FlagState) = .ok stB := h
    cases h'
  | ok s1 =>
    rw [h1] at h
    have h2 : L2.foldlM (flagStep argsA) s1 = .ok stB := h
    obtain ⟨sA, hA⟩ := foldlM_flagStep_ok_transfer h1 args st
    obtain ⟨sB, hB⟩ := foldlM_flagStep_ok_transfer h2 args sA
    refine ⟨sB, ?_⟩
    rw [List.foldlM_append _ _ L1 (t :: L2), hA]
    show (t :: L2).foldlM (flagStep args) sA = .ok sB
    rw [List.foldlM_cons, flagStep_neutral args sA t ht1 ht2]
    exact hB

/-- Core insertion fact: a run of tokens the flag loop skips, none of them
help or config tokens, inserted anywhere except directly after a
value-taking flag, leaves the entire resolution unchanged. -/
theorem parse_insert_core (fs : FileSys) (env : Env) (prog : Str)
    (pre post ins : List Str) {spB spI : Option Str}
    (hins : ∀ a ∈ ins, splitOnceEq a = none ∧ recognizedTok a = false)
    (hinshelp : ∀ a ∈ ins, helpTok a = false)
    (hlast : ∀ x, (prog :: pre).getLast? = some x → valueFlagTok x = false)
    (hscanB : scanLoop (pre ++ post) (none, none) = .ok (none, spB))
    (hscanI : scanLoop (pre ++ ins ++ post) (none, none) = .ok (none, spI))
    (henv : env.acommit_config = none)
    (hfs : fs (str "acommit.json") = .absent) :
    parse_args fs env (prog :: (pre ++ ins ++ post))
      = parse_args fs env (prog :: (pre ++ post)) := by
  have hhelp_eq : helpScan (prog :: (pre ++ ins ++ post))
      = helpScan (prog :: (pre ++ post)) := by
    unfold helpScan
    show (pre ++ ins ++ post).any helpTok = (pre ++ post).any helpTok
    exact any_insert hinshelp
  by_cases hb : helpScan (prog :: (pre ++ post)) = true
  · unfold parse_args
    rw [hhelp_eq, hb]
    rfl
  · have hbf : helpScan (prog :: (pre ++ post)) = false := by
      cases hx : helpScan (prog :: (pre ++ post))
      · rfl
      · exact absurd hx hb
    have hif : helpScan (prog :: (pre ++ ins ++ post)) = false := by
      rw [hhelp_eq]; exact hbf
    have hlook : ∀ tok, valueFlagTok tok = true →
        lookupAfterFirst (prog :: (pre ++ ins ++ post)) tok
          = lookupAfterFirst (prog :: (pre ++ post)) tok := by
      intro tok hv
      have h1 : prog :: (pre ++ ins ++ post) = (prog :: pre) ++ ins ++ post := by
        simp
      have h2 : prog :: (pre ++ post) = (prog :: pre) ++ post := by simp
      rw [h1, h2]
      refine lookupAfterFirst_insert ?_ ?_
      · intro a ha heq
        have := valueFlagTok_false_of_recognized_false (hins a ha).2
        rw [heq, hv] at this
        cases this
      · intro x hx heq
        have hxf := hlast x hx
        rw [heq, hv] at hxf
        cases hxf
    rw [parse_args_flags hif hscanI henv hfs,
      parse_args_flags hbf hscanB henv hfs]
    have hfold : (pre ++ ins ++ post).foldlM
          (flagStep (prog :: (pre ++ ins ++ post))) initFlags
        = (pre ++ post).foldlM (flagStep (prog :: (pre ++ post))) initFlags := by
      rw [foldlM_flagStep_congr (fun t _ hv => hlook t hv) initFlags]
      exact foldlM_insert_list_neutral hins pre post initFlags
    show ((pre ++ ins ++ post).foldlM
        (flagStep (prog :: (pre ++ ins ++ post))) initFlags).map _ = _
    rw [hfold]
    rfl

/-- An unknown `--key=value` argument reached by the flag loop is fatal with
the `Unknown argument` error naming the key. -/
theorem unknown_eq_arg_fatal (fs : FileSys) (env : Env) (prog : Str)
    (pre post : List Str) (key value : Str) {sp : Option Str}
    (hhelp : helpScan (prog :: (pre ++ (key ++ '=' :: value) :: post)) = false)
    (hscan : scanLoop (pre ++ (key ++ '=' :: value) :: post) (none, none)
      = .ok (none, sp))
    (henv : env.acommit_config = none) (hfs : fs (str "acommit.json") = .absent)
    (hpre : ∀ t ∈ pre, eqFormOk t = true)
    (hkey1 : '=' ∉ key) (hkey2 : recognizedTok key = false) :
    parse_args fs env (prog :: (pre ++ (key ++ '=' :: value) :: post))
      = .error (str "Unknown argument: " ++ key) := by
  rw [@parse_args_flags fs env (prog :: (pre ++ (key ++ '=' :: value) :: post)) sp
    hhelp (by exact hscan) henv hfs]
  obtain ⟨st1, hst1⟩ :=
    foldlM_flagStep_ok hpre (prog :: (pre ++ (key ++ '=' :: value) :: post)) initFlags
  show ((pre ++ (key ++ '=' :: value) :: post).foldlM (flagStep _) initFlags).map _ = _
  rw [List.foldlM_append _ _ pre ((key ++ '=' :: value) :: post), hst1]
  show (((key ++ '=' :: value) :: post).foldlM (flagStep _) st1).map _ = _
  rw [List.foldlM_cons,
    flagStep_eq_unknown _ st1 (splitOnceEq_append_eq value hkey1) hkey2]
  rfl

/-- A bare token the flag loop does not recognize never turns a succeeding
resolution into a failure, wherever it is inserted. -/
theorem neutral_token_no_fail (fs : FileSys) (env : Env) (prog t : Str)
    (pre post : List Str) {o : ParseOutcome}
    (ht1 : splitOnceEq t = none) (ht2 : recognizedTok t = false)
    (ht3 : helpTok t = false) (ht4 : t ≠ str "--config")
    (ht5 : t ≠ str "--provider")
    (hcfg : str "--config" ∉ pre ++ post)
    (henv : env.acommit_config = none) (hfs : fs (str "acommit.json") = .absent)
    (hOk : parse_args fs env (prog :: (pre ++ post)) = .ok o) :
    ∃ o', parse_args fs env (prog :: (pre ++ t :: post)) = .ok o' := by
  have hsh_any : helpScan (prog :: (pre ++ t :: post))
      = helpScan (prog :: (pre ++ post)) := by
    unfold helpScan
    show (pre ++ t :: post).any helpTok = (pre ++ post).any helpTok
    have hshape : pre ++ t :: post = pre ++ [t] ++ post := by simp
    rw [hshape]
    exact any_insert fun x hx => by
      rw [List.mem_singleton] at hx
      subst hx
      exact ht3
  by_cases hb : helpScan (prog :: (pre ++ post)) = true
  · refine ⟨.exited, ?_⟩
    unfold parse_args
    rw [hsh_any, hb]
    rfl
  · have hbf : helpScan (prog :: (pre ++ post)) = false := by
      cases hx : helpScan (prog :: (pre ++ post))
      · rfl
      · exact absurd hx hb
    have hif : helpScan (prog :: (pre ++ t :: post)) = false := by
      rw [hsh_any]; exact hbf
    cases hscanB : scanLoop (pre ++ post) (none, none) with
    | error e =>
      exfalso
      unfold parse_args at hOk
      rw [hbf, show List.drop 1 (prog :: (pre ++ post)) = pre ++ post from rfl,
        hscanB] at hOk
      have h' : (Except.error e : Except Str ParseOutcome) = .ok o := hOk
      cases h'
    | ok cpsp =>
      rcases cpsp with ⟨cp, sp⟩
      have hcp : cp = none := scanLoop_cp_none hcfg hscanB
      subst hcp
      obtain ⟨sp', hscanI⟩ := scanLoop_insert ht4 ht5 pre post none
        (fun hm => hcfg (List.mem_append_left post hm)) hscanB
      have hOk' := hOk
      rw [@parse_args_flags fs env (prog :: (pre ++ post)) sp
        hbf (by exact hscanB) henv hfs] at hOk'
      cases hfoldB : (pre ++ post).foldlM (flagStep (prog :: (pre ++ post)))
          initFlags with
      | error e =>
        exfalso
        rw [show List.drop 1 (prog :: (pre ++ post)) = pre ++ post from rfl,
          hfoldB] at hOk'
        have h' : (Except.error e : Except Str ParseOutcome) = .ok o := hOk'
        cases h'
      | ok stB =>
        obtain ⟨s, hs⟩ := foldlM_insert_ok hfoldB ht1 ht2
          (prog :: (pre ++ t :: post)) initFlags
        refine ⟨.resolved (resolveFlags s env).1 (resolveFlags s env).2, ?_⟩
        rw [@parse_args_flags fs env (prog :: (pre ++ t :: post)) sp'
          hif (by exact hscanI) henv hfs]
        rw [show List.drop 1 (prog :: (pre ++ t :: post)) = pre ++ t :: post from rfl,
          hs]
        rfl

/-- A bare token the flag loop does not recognize, placed anywhere except
directly after a value-taking flag, has no effect at all on resolution. -/
theorem neutral_token_inert (fs : FileSys) (env : Env) (prog t : Str)
    (pre post : List Str)
    (ht1 : splitOnceEq t = none) (ht2 : recognizedTok t = false)
    (ht3 : helpTok t = false) (ht4 : t ≠ str "--config")
    (ht5 : t ≠ str "--provider")
    (hpp : ∀ x ∈ pre ++ post, x ≠ str "--config" ∧ x ≠ str "--provider")
    (hlast : ∀ x, (prog :: pre).getLast? = some x → valueFlagTok x = false)
    (henv : env.acommit_config = none)
    (hfs : fs (str "acommit.json") = .absent) :
    parse_args fs env (prog :: (pre ++ t :: post))
      = parse_args fs env (prog :: (pre ++ post)) := by
  have hscanB : scanLoop (pre ++ post) (none, none) = .ok (none, none) :=
    scanLoop_skip hpp (none, none)
  have hscanI : scanLoop (pre ++ [t] ++ post) (none, none) = .ok (none, none) := by
    have hshape : pre ++ [t] ++ post = pre ++ t :: post := by simp
    rw [hshape,
      scanLoop_append_skip (fun x hx => hpp x (List.mem_append_left post hx))
        (none, none),
      scanLoop_cons_other ht4 ht5]
    exact scanLoop_skip (fun x hx => hpp x (List.mem_append_right pre hx)) (none, none)
  have hshape2 : pre ++ t :: post = pre ++ [t] ++ post := by simp
  rw [hshape2]
  exact parse_insert_core fs env prog pre post [t]
    (fun a ha => by rw [List.mem_singleton] at ha; subst ha; exact ⟨ht1, ht2⟩)
    (fun a ha => by rw [List.mem_singleton] at ha; subst ha; exact ht3)
    hlast hscanB hscanI henv hfs

/-- C7, counterexample: the claim says an unrecognized bare token is always
ignored, but a stray token directly after a bare `--openai` is consumed as
that flag's value and flips the resolved provider: `acommit --openai stray`
resolves to the OpenAI-compatible provider at URL `stray`, while plain
`acommit --openai` resolves to the default Ollama provider. -/
theorem claim_C7_counterexample :
    parse_args (fun _ => .absent) ⟨none, none, none⟩
        [str "acommit", str "--openai", str "stray"]
      = .ok (.resolved (.OpenAI (str "stray") none (str "gpt-3.5-turbo")) false)
    ∧ parse_args (fun _ => .absent) ⟨none, none, none⟩ [str "acommit", str "--openai"]
      = .ok (.resolved (.Ollama (str "http://localhost:11434") (str "llama3.2:3b"))
          false) :=
  ⟨rfl, rfl⟩

/-- C7 (amended), with no config file in use: (1) any `--key=value` argument
whose key the flag loop does not recognize aborts resolution with an
`Unknown argument` error naming the key, provided the arguments before it
are benign; (2) an unrecognized bare token never causes a succeeding
resolution to fail; (3) such a token is ignored outright — same resolution
with and without it — provided it does not immediately follow a
value-taking flag, where it would be consumed as that flag's value instead
of being ignored. -/
theorem claim_C7_unknown_flag_policy :
    (∀ (fs : FileSys) (env : Env) (prog : Str) (pre post : List Str)
      (key value : Str) (sp : Option Str),
      helpScan (prog :: (pre ++ (key ++ '=' :: value) :: post)) = false →
      scanLoop (pre ++ (key ++ '=' :: value) :: post) (none, none)
        = .ok (none, sp) →
      env.acommit_config = none → fs (str "acommit.json") = .absent →
      (∀ t ∈ pre, eqFormOk t = true) → '=' ∉ key → recognizedTok key = false →
      parse_args fs env (prog :: (pre ++ (key ++ '=' :: value) :: post))
        = .error (str "Unknown argument: " ++ key))
    ∧ (∀ (fs : FileSys) (env : Env) (prog t : Str) (pre post : List Str)
        (o : ParseOutcome),
      splitOnceEq t = none → recognizedTok t = false → helpTok t = false →
      t ≠ str "--config" → t ≠ str "--provider" →
      str "--config" ∉ pre ++ post →
      env.acommit_config = none → fs (str "acommit.json") = .absent →
      parse_args fs env (prog :: (pre ++ post)) = .ok o →
      ∃ o', parse_args fs env (prog :: (pre ++ t :: post)) = .ok o')
    ∧ (∀ (fs : FileSys) (env : Env) (prog t : Str) (pre post : List Str),
      splitOnceEq t = none → recognizedTok t = false → helpTok t = false →
      t ≠ str "--config" → t ≠ str "--provider" →
      (∀ x ∈ pre ++ post, x ≠ str "--config" ∧ x ≠ str "--provider") →
      (∀ x, (prog :: pre).getLast? = some x → valueFlagTok x = false) →
      env.acommit_config = none → fs (str "acommit.json") = .absent →
      parse_args fs env (prog :: (pre ++ t :: post))
        = parse_args fs env (prog :: (pre ++ post))) :=
  ⟨fun fs env prog pre post key value sp h1 h2 h3 h4 h5 h6 h7 =>
      unknown_eq_arg_fatal fs env prog pre post key value h1 h2 h3 h4 h5 h6 h7,
    fun fs env prog t pre post o h1 h2 h3 h4 h5 h6 h7 h8 h9 =>
      neutral_token_no_fail fs env prog t pre post h1 h2 h3 h4 h5 h6 h7 h8 h9,
    fun fs env prog t pre post h1 h2 h3 h4 h5 h6 h7 h8 h9 =>
      neutral_token_inert fs env prog t pre post h1 h2 h3 h4 h5 h6 h7 h8 h9⟩

/-- Witness for C7 at concrete invocations: `--wat=1` aborts with the
unknown-argument error; a stray token after a plain program name neither
fails nor changes the resolution. -/
theorem claim_C7_witness :
    parse_args (fun _ => .absent) ⟨none, none, none⟩
        [str "acommit", str "--wat" ++ '=' :: str "1"]
      = .error (str "Unknown argument: " ++ str "--wat")
    ∧ (∃ o', parse_args (fun _ => .absent) ⟨none, none, none⟩
        [str "acommit", str "stray"] = .ok o')
    ∧ parse_args (fun _ => .absent) ⟨none, none, none⟩ [str "acommit", str "stray"]
      = parse_args (fun _ => .absent) ⟨none, none, none⟩ [str "acommit"] :=
  ⟨claim_C7_unknown_flag_policy.1 (fun _ => .absent) ⟨none, none, none⟩
      (str "acommit") [] [] (str "--wat") (str "1") none
      (by decide) rfl rfl rfl (fun t ht => absurd ht (List.not_mem_nil t))
      (by decide) (by decide),
    claim_C7_unknown_flag_policy.2.1 (fun _ => .absent) ⟨none, none, none⟩
      (str "acommit") (str "stray") [] []
      (.resolved (.Ollama (str "http://localhost:11434") (str "llama3.2:3b")) false)
      (by decide) (by decide) (by decide) (by decide) (by decide)
      (List.not_mem_nil _) rfl rfl rfl,
    claim_C7_unknown_flag_policy.2.2 (fun _ => .absent) ⟨none, none, none⟩
      (str "acommit") (str "stray") [] []
      (by decide) (by decide) (by decide) (by decide) (by decide)
      (fun x hx => absurd hx (List.not_mem_nil x))
      (fun x hx => by simp at hx; subst hx; decide)
      rfl rfl⟩

/-- C9, counterexample: the claim says `--provider` with no config file is
silently ignored with no effect on the resolved provider, but when it
directly follows a bare `--openai` it is consumed as that flag's URL value:
`acommit --openai --provider gemini` resolves to the OpenAI-compatible
provider (at URL `--provider`), while `acommit --openai` resolves to the
default Ollama provider. -/
theorem claim_C9_counterexample :
    parse_args (fun _ => .absent) ⟨none, none, none⟩
        [str "acommit", str "--openai", str "--provider", str "gemini"]
      = .ok (.resolved (.OpenAI (str "--provider") none (str "gpt-3.5-turbo")) false)
    ∧ parse_args (fun _ => .absent) ⟨none, none, none⟩ [str "acommit", str "--openai"]
      = .ok (.resolved (.Ollama (str "http://localhost:11434") (str "llama3.2:3b"))
          false) :=
  ⟨rfl, rfl⟩

/-- C9 (amended): when no config file is found (no `--config`, no
`ACOMMIT_CONFIG`, no local `acommit.json`), a `--provider <name>` pair whose
name is not itself a flag-like token, passed once and not directly after a
value-taking flag, is silently ignored: resolution neither errors because of
it nor changes in any way — provider, fields, and verbose flag are those of
the invocation without the pair. -/
theorem claim_C9_provider_flag_inert (fs : FileSys) (env : Env)
    (prog name : Str) (pre post : List Str)
    (hn1 : splitOnceEq name = none) (hn2 : recognizedTok name = false)
    (hn3 : helpTok name = false) (hn4 : name ≠ str "--config")
    (hn5 : name ≠ str "--provider")
    (hpp : ∀ x ∈ pre ++ post, x ≠ str "--config" ∧ x ≠ str "--provider")
    (hlast : ∀ x, (prog :: pre).getLast? = some x → valueFlagTok x = false)
    (henv : env.acommit_config = none)
    (hfs : fs (str "acommit.json") = .absent) :
    parse_args fs env (prog :: (pre ++ str "--provider" :: name :: post))
      = parse_args fs env (prog :: (pre ++ post)) := by
  have hscanB : scanLoop (pre ++ post) (none, none) = .ok (none, none) :=
    scanLoop_skip hpp (none, none)
  have hscanI : scanLoop (pre ++ [str "--provider", name] ++ post) (none, none)
      = .ok (none, some name) := by
    have hshape : pre ++ [str "--provider", name] ++ post
        = pre ++ str "--provider" :: name :: post := by simp
    rw [hshape,
      scanLoop_append_skip (fun x hx => hpp x (List.mem_append_left post hx))
        (none, none)]
    show scanLoop (str "--provider" :: name :: post) (none, none) = _
    unfold scanLoop
    rw [if_neg (by decide), if_pos rfl]
    show scanLoop (name :: post) (none, some name) = _
    rw [scanLoop_cons_other hn4 hn5]
    exact scanLoop_skip (fun x hx => hpp x (List.mem_append_right pre hx)) (none, some name)
  have hshape2 : pre ++ str "--provider" :: name :: post
      = pre ++ [str "--provider", name] ++ post := by simp
  rw [hshape2]
  refine parse_insert_core fs env prog pre post [str "--provider", name]
    ?_ ?_ hlast hscanB hscanI henv hfs
  · intro a ha
    rcases List.mem_cons.mp ha with rfl | ha'
    · exact ⟨by decide, by decide⟩
    · rw [List.mem_singleton] at ha'
      subst ha'
      exact ⟨hn1, hn2⟩
  · intro a ha
    rcases List.mem_cons.mp ha with rfl | ha'
    · decide
    · rw [List.mem_singleton] at ha'
      subst ha'
      exact hn3

/-- Witness for C9: `acommit --provider gemini` with no config file resolves
exactly as plain `acommit`. -/
theorem claim_C9_witness :
    splitOnceEq (str "gemini") = none ∧ recognizedTok (str "gemini") = false
    ∧ parse_args (fun _ => .absent) ⟨none, none, none⟩
        [str "acommit", str "--provider", str "gemini"]
      = parse_args (fun _ => .absent) ⟨none, none, none⟩ [str "acommit"] :=
  ⟨by decide, by decide,
    claim_C9_provider_flag_inert (fun _ => .absent) ⟨none, none, none⟩
      (str "acommit") (str "gemini") [] []
      (by decide) (by decide) (by decide) (by decide) (by decide)
      (fun x hx => absurd hx (List.not_mem_nil x))
      (fun x hx => by simp at hx; subst hx; decide)
      rfl rfl⟩

end Acommit
